import Mathlib

/-!
Verification development for the Coreza workflow orchestration engine.

The definitions below are shallow embeddings of the Python sources:
  * `src/workflow_engine.py`            (`topological_sort`, `execute_node`, `execute_workflow`)
  * `src/server/services/queue.py`      (`run_job`)
  * `src/coreza-backend/scheduler/utils/resolve_references.py`
  * `src/coreza-backend/scheduler/api/controllers/workflow_controller.py`
      (`schedule_obj_to_cron`)

Python JSON-like runtime values are modelled by `Value`; Python `None` is
`Value.null`.  Machine-external behaviour (dynamic module import /
`indicator_map` handler resolution, `str.format`, wall-clock timestamps,
the Supabase store) is passed in as explicit parameters, so theorems
quantify over it.  String processing is carried out on `List Char` so
that every definition reduces in the kernel.
-/

set_option maxRecDepth 10000

/-- JSON-like Python values flowing through the engine.  Python `None` is
`null`; dict insertion order is the list order, as in CPython. -/
inductive Value where
  | null
  | bool (b : Bool)
  | int (n : Int)
  | str (s : String)
  | list (xs : List Value)
  | dict (kvs : List (String × Value))

/-- `d.get(k)` on a Python dict keyed by strings (insertion-ordered). -/
def assocGet (kvs : List (String × Value)) (k : String) : Option Value :=
  (kvs.find? (fun p => p.1 == k)).map (fun p => p.2)

/-- `d[k] = v` on a Python dict: overwrite in place if the key exists,
otherwise append (CPython preserves insertion order). -/
def assocSet (kvs : List (String × Value)) (k : String) (v : Value) : List (String × Value) :=
  if (kvs.find? (fun p => p.1 == k)).isSome then
    kvs.map (fun p => if p.1 == k then (k, v) else p)
  else
    kvs ++ [(k, v)]

/-- Python truthiness of a `Value` (`bool(x)`). -/
def pyTruthy : Value → Bool
  | .null => false
  | .bool b => b
  | .int n => n != 0
  | .str s => s != ""
  | .list xs => !xs.isEmpty
  | .dict kvs => !kvs.isEmpty

/-! ### JSON serialization (`json.dumps`) -/

/-- Lower-case hex digit. -/
def hexDigit (n : Nat) : Char :=
  if n < 10 then Char.ofNat (48 + n) else Char.ofNat (87 + n)

/-- A `\uXXXX` escape for a 16-bit code unit. -/
def uEscape4 (n : Nat) : String :=
  String.mk ['\\', 'u', hexDigit (n / 4096 % 16), hexDigit (n / 256 % 16),
             hexDigit (n / 16 % 16), hexDigit (n % 16)]

/-- `json.dumps` escaping for one character (default `ensure_ascii=True`). -/
def jsonEscapeChar (c : Char) : String :=
  if c == '"' then "\\\""
  else if c == '\\' then "\\\\"
  else if c == '\n' then "\\n"
  else if c == '\t' then "\\t"
  else if c == '\r' then "\\r"
  else if c == '\x08' then "\\b"
  else if c == '\x0c' then "\\f"
  else if c.toNat < 0x20 then uEscape4 c.toNat
  else if c.toNat ≤ 0x7f then String.singleton c
  else if c.toNat ≤ 0xffff then uEscape4 c.toNat
  else
    let n := c.toNat - 0x10000
    uEscape4 (0xd800 + n / 0x400) ++ uEscape4 (0xdc00 + n % 0x400)

/-- `json.dumps` of a string. -/
def jsonQuote (s : String) : String :=
  "\"" ++ String.join (s.toList.map jsonEscapeChar) ++ "\""

/-- `json.dumps(v)` with the default separators `", "` and `": "`. -/
def jsonDumps : Value → String
  | .null => "null"
  | .bool b => cond b "true" "false"
  | .int n => toString n
  | .str s => jsonQuote s
  | .list xs =>
    "[" ++ String.intercalate ", " (xs.attach.map (fun x => jsonDumps x.1)) ++ "]"
  | .dict kvs =>
    "\x7b" ++ String.intercalate ", "
      (kvs.attach.map (fun p => jsonQuote p.1.1 ++ ": " ++ jsonDumps p.1.2)) ++ "\x7d"
termination_by v => sizeOf v
decreasing_by
  · exact Nat.lt_of_lt_of_le (List.sizeOf_lt_of_mem x.2) (by simp +arith)
  · have h1 : sizeOf p.1 ≤ sizeOf kvs := Nat.le_of_lt (List.sizeOf_lt_of_mem p.2)
    have h2 : sizeOf p.1.2 < sizeOf p.1 := by
      obtain ⟨a, b⟩ := p.1
      simp +arith
    exact Nat.lt_of_lt_of_le (Nat.lt_of_lt_of_le h2 h1) (by simp +arith)

/-- Step 5 of `resolve_references.replacer`: `json.dumps` for dicts and
lists, Python `str()` for everything else. -/
def valueToTemplateString : Value → String
  | .dict kvs => jsonDumps (.dict kvs)
  | .list xs => jsonDumps (.list xs)
  | .null => "None"
  | .bool b => cond b "True" "False"
  | .int n => toString n
  | .str s => s

/-! ### Path parsing (`parse_path`) -/

/-- A key produced by `parse_path`: a string or an integer. -/
inductive PathKey where
  | str (s : String)
  | int (n : Int)
deriving DecidableEq

/-- ASCII subset of Python regex `\s` (the templates in this system are
ASCII; the unicode extension is not modelled). -/
def isPySpace (c : Char) : Bool :=
  c == ' ' || c == '\t' || c == '\n' || c == '\r' || c == '\x0b' || c == '\x0c'

/-- `'\x7b\x7b' in expr` (Python substring test used as the fast path). -/
def hasDoubleBrace : List Char → Bool
  | '\x7b' :: '\x7b' :: _ => true
  | _ :: cs => hasDoubleBrace cs
  | [] => false

/-- Characters admitted by the dot-notation token `[^[.\]]+`. -/
def notKeyStop (c : Char) : Bool := !(c == '[' || c == '.' || c == ']')

/-- `re.fullmatch(r"-?\d+", tok)`. -/
def isIntToken : List Char → Bool
  | [] => false
  | '-' :: rest => !rest.isEmpty && rest.all Char.isDigit
  | cs => cs.all Char.isDigit

/-- Decimal digits to `Nat`. -/
def digitsToNat (cs : List Char) : Nat :=
  cs.foldl (fun a c => a * 10 + (c.toNat - 48)) 0

/-- `int(tok)` for a token matching `-?\d+`. -/
def parseIntTok (cs : List Char) : Int :=
  match cs with
  | '-' :: rest => -(digitsToNat rest : Int)
  | _ => (digitsToNat cs : Int)

/-- Bracketed numeric key `\[(\-?\d+)\]` (applied after the `[`). -/
def numKey (cs : List Char) : Option (PathKey × List Char) :=
  let sign := match cs with
    | '-' :: _ => true
    | _ => false
  let cs1 := if sign then cs.drop 1 else cs
  let ds := cs1.takeWhile Char.isDigit
  let rest := cs1.dropWhile Char.isDigit
  if ds.isEmpty then none
  else match rest with
    | ']' :: rest2 =>
      some (.int (if sign then -(digitsToNat ds : Int) else (digitsToNat ds : Int)), rest2)
    | _ => none

/-- Bracketed quoted key `\[["'][^"']+["']\]` (applied after the `[`);
the opening and closing quotes need not agree, mirroring the regex. -/
def quoteKey (cs : List Char) : Option (PathKey × List Char) :=
  match cs with
  | q :: rest =>
    if q == '"' || q == '\'' then
      let body := rest.takeWhile (fun c => !(c == '"' || c == '\''))
      let rest2 := rest.dropWhile (fun c => !(c == '"' || c == '\''))
      if body.isEmpty then none
      else match rest2 with
        | _ :: ']' :: rest3 => some (.str (String.mk body), rest3)
        | _ => none
    else none
  | [] => none

/-- One bracket alternative of the `parse_path` regex. -/
def bracketKey (cs : List Char) : Option (PathKey × List Char) :=
  match numKey cs with
  | some r => some r
  | none => quoteKey cs

/-- `parse_path`'s `finditer` loop: at each position try a token, else
advance one character.  The fuel equals the input length at the top call
and every step consumes at least one character per fuel unit. -/
def parsePathGo : Nat → List Char → List PathKey
  | 0, _ => []
  | _ + 1, [] => []
  | fuel + 1, c :: cs =>
    if c == '[' then
      match bracketKey cs with
      | some (k, rest) => k :: parsePathGo fuel rest
      | none => parsePathGo fuel cs
    else if c == '.' || c == ']' then parsePathGo fuel cs
    else
      let tok := (c :: cs).takeWhile notKeyStop
      let rest := (c :: cs).dropWhile notKeyStop
      (if isIntToken tok then PathKey.int (parseIntTok tok) else PathKey.str (String.mk tok))
        :: parsePathGo fuel rest

/-- `parse_path(path)`. -/
def parse_path (cs : List Char) : List PathKey := parsePathGo cs.length cs

/-! ### The walk (`replacer` step 3) -/

/-- Collapse a JSON null to `none`: in Python both a missing value and a
stored `None` make `result` become `None`. -/
def denull : Option Value → Option Value
  | some .null => none
  | o => o

/-- `result[idx]` on a Python list inside `try/except` (Python indexing
accepts `-len ≤ idx < len`, wrapping negatives once more). -/
def pyListIndex (xs : List Value) (idx : Int) : Option Value :=
  if 0 ≤ idx then
    if idx < (xs.length : Int) then denull (xs.get? idx.toNat) else none
  else if 0 ≤ idx + (xs.length : Int) then denull (xs.get? (idx + (xs.length : Int)).toNat)
  else none

/-- One step of the walk over `data_source`. -/
def walkStep (v : Value) (k : PathKey) : Option Value :=
  match v, k with
  | .list xs, .int i =>
    let idx := if 0 ≤ i then i else i + (xs.length : Int)
    pyListIndex xs idx
  | .dict kvs, .str s => denull (assocGet kvs s)
  | .dict _, .int _ => none
  | _, _ => none

/-- The walk over all keys (`for key in keys` with early `None` exit). -/
def walkPath : Option Value → List PathKey → Option Value
  | none, _ => none
  | some v, [] => some v
  | some v, k :: ks => walkPath (walkStep v k) ks

/-- `context.get(name)` with the `is None` convention collapsed. -/
def ctxGet (ctx : List (String × Value)) (name : String) : Option Value :=
  denull (assocGet ctx name)

/-- Python `str.strip()` on the raw path. -/
def pyStripChars (cs : List Char) : List Char :=
  ((cs.dropWhile isPySpace).reverse.dropWhile isPySpace).reverse

/-- `re.sub(r'^[.\s]+', '', path)`. -/
def dropLeadingDotsSpace (cs : List Char) : List Char :=
  cs.dropWhile (fun c => c == '.' || isPySpace c)

/-! ### Template matching (`template_regex`) -/

/-- `group(0)`/group(2)/group(3) data extracted from one regex match. -/
structure RefMatch where
  full : List Char
  nodeName : Option String
  rawPath : List Char

/-- Index of the first `\x7d` of the remainder, if any. -/
def idxFirstRBrace (cs : List Char) : Option Nat :=
  cs.findIdx? (fun c => c == '\x7d')

/-- Match `([^\x7d]+?)\s*\x7d\x7d` at the start of `ds`: the `\x7d\x7d`
must sit at the first `\x7d`, and the lazy group takes the least nonempty
prefix of the region before it whose complement is whitespace.  Returns
`(group3, rest after the match)`. -/
def tailCore (ds : List Char) : Option (List Char × List Char) :=
  match idxFirstRBrace ds with
  | none => none
  | some k =>
    match ds.drop (k + 1) with
    | c :: _ =>
      if c == '\x7d' && !(k == 0) then
        let region := ds.take k
        let wsSuf := (region.reverse.takeWhile isPySpace).length
        let g := max 1 (k - wsSuf)
        some (ds.take g, ds.drop (k + 2))
      else none
    | [] => none

/-- The `\s*` alternative of `(?:\.|\s*)` followed by `tailCore`: the
greedy whitespace prefix backs off just enough to leave the lazy group
nonempty. -/
def tailMatchWs (ds : List Char) : Option (List Char × List Char) :=
  match idxFirstRBrace ds with
  | none => none
  | some k =>
    match ds.drop (k + 1) with
    | c :: _ =>
      if c == '\x7d' && !(k == 0) then
        let w := (ds.takeWhile isPySpace).length
        tailCore (ds.drop (min w (k - 1)))
      else none
    | [] => none

/-- `(?:\.|\s*)([^\x7d]+?)\s*\x7d\x7d`: the `.` alternative is preferred,
with full fallback to the whitespace alternative (which may then consume
the dot inside the lazy group), mirroring regex backtracking. -/
def tailMatch (ds : List Char) : Option (List Char × List Char) :=
  match ds with
  | '.' :: rest =>
    match tailCore rest with
    | some r => some r
    | none => tailMatchWs ds
  | _ => tailMatchWs ds

/-- `\$json`. -/
def matchDollarJson (cs : List Char) : Option (Option String × List Char) :=
  match cs with
  | '$' :: 'j' :: 's' :: 'o' :: 'n' :: rest => some (none, rest)
  | _ => none

/-- Group 1: `\$\('([^']+)'\)\.json` or `\$json` (first alternative
preferred). -/
def matchGroup1 (cs : List Char) : Option (Option String × List Char) :=
  match cs with
  | '$' :: '(' :: q :: rest =>
    if q == '\'' then
      let name := rest.takeWhile (fun c => !(c == '\''))
      let rest2 := rest.dropWhile (fun c => !(c == '\''))
      if name.isEmpty then matchDollarJson cs
      else match rest2 with
        | _ :: ')' :: '.' :: 'j' :: 's' :: 'o' :: 'n' :: rest3 =>
          some (some (String.mk name), rest3)
        | _ => matchDollarJson cs
    else matchDollarJson cs
  | _ => matchDollarJson cs

/-- Try the whole template regex anchored at the start of `cs`;
returns the match data and the remainder after the match. -/
def tryMatchAt (cs : List Char) : Option (RefMatch × List Char) :=
  match cs with
  | '\x7b' :: '\x7b' :: cs1 =>
    let cs2 := cs1.dropWhile isPySpace
    match matchGroup1 cs2 with
    | none => none
    | some (nm, cs3) =>
      match tailMatch cs3 with
      | none => none
      | some (g3, rest) =>
        some (⟨cs.take (cs.length - rest.length), nm, g3⟩, rest)
  | _ => none

/-! ### The replacer and `re.sub` scan -/

/-- Steps 2–3 of `replacer`: clean the raw path, parse it, walk it. -/
def resolvePathOn (ds : Value) (rawPath : List Char) : Option Value :=
  let cp := dropLeadingDotsSpace (pyStripChars rawPath)
  walkPath (some ds) (parse_path cp)

/-- `replacer(match)` with a *string* `self_node`, as the function's own
docstring specifies. -/
def applyMatch (ctx : List (String × Value)) (selfNode : String) (m : RefMatch) : List Char :=
  let dataSource := match m.nodeName with
    | some name => ctxGet ctx name
    | none => ctxGet ctx selfNode
  match dataSource with
  | none => m.full
  | some ds =>
    match resolvePathOn ds m.rawPath with
    | none => m.full
    | some v => (valueToTemplateString v).toList

/-- `template_regex.sub(replacer, expr)`: left-to-right scan, each match
replaced independently, non-matching characters copied through.  At the
top-level call the fuel is the input length; every fuel unit consumes at
least one input character. -/
def subScan (ctx : List (String × Value)) (selfNode : String) : Nat → List Char → List Char
  | 0, cs => cs
  | _ + 1, [] => []
  | fuel + 1, c :: cs =>
    match tryMatchAt (c :: cs) with
    | some (m, rest) => applyMatch ctx selfNode m ++ subScan ctx selfNode fuel rest
    | none => c :: subScan ctx selfNode fuel cs

/-- `resolve_references(expr, context, self_node)` with a string
`self_node`, per the function's documented contract. -/
def resolve_references (expr : Value) (context : List (String × Value)) (self_node : String) : Value :=
  match expr with
  | .str s =>
    if hasDoubleBrace s.toList then
      .str (String.mk (subScan context self_node s.toList.length s.toList))
    else .str s
  | v => v

/-- `replacer` as actually invoked by the engine, which passes the whole
node *dict* as `self_node` (`workflow_engine.py` line 85): any `$json`
form reaches `context.get(self_node)` with an unhashable dict key and
raises `TypeError`. -/
def applyMatchEngine (ctx : List (String × Value)) (m : RefMatch) : Except String (List Char) :=
  match m.nodeName with
  | some name =>
    match ctxGet ctx name with
    | none => .ok m.full
    | some ds =>
      match resolvePathOn ds m.rawPath with
      | none => .ok m.full
      | some v => .ok (valueToTemplateString v).toList
  | none => .error "TypeError: unhashable type: dict"

/-- The `re.sub` scan as invoked by the engine (first `$json` match
aborts the whole substitution with the `TypeError`). -/
def subScanEngine (ctx : List (String × Value)) : Nat → List Char → Except String (List Char)
  | 0, cs => .ok cs
  | _ + 1, [] => .ok []
  | fuel + 1, c :: cs =>
    match tryMatchAt (c :: cs) with
    | some (m, rest) =>
      match applyMatchEngine ctx m with
      | .error e => .error e
      | .ok r =>
        match subScanEngine ctx fuel rest with
        | .error e => .error e
        | .ok tl => .ok (r ++ tl)
    | none =>
      match subScanEngine ctx fuel cs with
      | .error e => .error e
      | .ok tl => .ok (c :: tl)

/-- `resolve_references(v, context, node)` as called by
`execute_workflow` (self scope is the node dict, not its id). -/
def resolve_references_enginecall (expr : Value) (context : List (String × Value)) :
    Except String Value :=
  match expr with
  | .str s =>
    if hasDoubleBrace s.toList then
      (subScanEngine context s.toList.length s.toList).map (fun cs => .str (String.mk cs))
    else .ok (.str s)
  | v => .ok v

/-! ### Schedule Translator (`workflow_controller.schedule_obj_to_cron`) -/

/-- The schedule object handed to the translator.  `none` stands for a
falsy schedule (Python `None`/empty dict); absent numeric fields are
`Option.none`. -/
structure ScheduleObj where
  interval : Option String
  count : Option Int
  hour : Option Int
  minute : Option Int

/-- Python `v or d` on integers (`0 or d` yields `d`). -/
def pyOrInt (v d : Int) : Int := if v = 0 then d else v

/-- `str(interval)` for the error message. -/
def intervalStr : Option String → String
  | none => "None"
  | some s => s

/-- `schedule_obj_to_cron(schedule)`; exceptions are modelled as
`Except.error`. -/
def schedule_obj_to_cron : Option ScheduleObj → Except String String
  | none => .error "Schedule object missing"
  | some s =>
    let count := s.count.getD 1
    let hour := s.hour.getD 0
    let minute := s.minute.getD 0
    if s.interval = some "Minutes" then
      .ok ("*/" ++ toString (pyOrInt count 1) ++ " * * * *")
    else if s.interval = some "Hours" then
      .ok (toString (pyOrInt minute 0) ++ " */" ++ toString (pyOrInt count 1) ++ " * * *")
    else if s.interval = some "Days" then
      .ok (toString (pyOrInt minute 0) ++ " " ++ toString (pyOrInt hour 0) ++ " */" ++
           toString (pyOrInt count 1) ++ " * *")
    else if s.interval = some "Weeks" then
      .ok (toString (pyOrInt minute 0) ++ " " ++ toString (pyOrInt hour 0) ++ " * * *")
    else if s.interval = some "Months" then
      .ok (toString (pyOrInt minute 0) ++ " " ++ toString (pyOrInt hour 0) ++ " " ++
           toString (pyOrInt count 1) ++ " * *")
    else
      .error ("Unsupported interval: " ++ intervalStr s.interval)

/-! ### Topological sort (`workflow_engine.topological_sort`) -/

/-- A workflow node (`id`, `type`, `values`); the further keys of the
node dicts play no role in the engine. -/
structure WNode where
  id : String
  type : String
  values : List (String × Value)

/-- A workflow edge (`source`, `target`). -/
structure WEdge where
  source : String
  target : String
deriving DecidableEq

/-- `graph[s]` after the edge loop: targets of the edges out of `s`, in
edge order. -/
def succList (edges : List WEdge) (s : String) : List String :=
  (edges.filter (fun e => e.source == s)).map (fun e => e.target)

/-- `indegree[t]` after the edge loop: the number of edges into `t`
(kept as `Int`, as Python's decrements can in principle go below zero). -/
def indeg0 (edges : List WEdge) (t : String) : Int :=
  ((edges.filter (fun e => e.target == t)).length : Int)

/-- The inner `for m in graph[nid]` loop: decrement each successor's
indegree and enqueue it when the count reaches zero. -/
def stepSuccs : List String → (String → Int) → List String → (String → Int) × List String
  | [], ind, q => (ind, q)
  | m :: rest, ind, q =>
    -- `indegree[m] -= 1` followed by reading `indegree[m]`: the updated
    -- value is `ind m - 1`
    if ind m - 1 = 0 then
      stepSuccs rest (fun x => if x = m then ind x - 1 else ind x) (q ++ [m])
    else
      stepSuccs rest (fun x => if x = m then ind x - 1 else ind x) q

/-- The `while queue` loop of Kahn's algorithm, popping the front of the
FIFO queue.  The fuel is `#nodes + 1` at the top call; under the
invariants below the queue empties before the fuel does. -/
def kahnLoop (succ : String → List String) :
    Nat → List String → List String → (String → Int) → List String
  | 0, _, order, _ => order
  | _ + 1, [], order, _ => order
  | fuel + 1, nid :: rest, order, ind =>
    let p := stepSuccs (succ nid) ind rest
    kahnLoop succ fuel p.2 (order ++ [nid]) p.1

/-- The ids of `nodes` in declaration order (= Python dict key order for
`indegree.items()` when the ids are distinct). -/
def nodeIds (nodes : List WNode) : List String := nodes.map (fun n => n.id)

/-- The order of node ids produced by the `while` loop of
`topological_sort`. -/
def kahnOrderIds (nodes : List WNode) (edges : List WEdge) : List String :=
  let ids := nodeIds nodes
  let ind := indeg0 edges
  kahnLoop (succList edges) (ids.length + 1) (ids.filter (fun i => ind i = 0)) [] ind

/-- `topological_sort(nodes, edges)`: the popped ids mapped back through
`node_map`, raising (`Except.error`) when the order is shorter than the
node count. -/
def topological_sort (nodes : List WNode) (edges : List WEdge) : Except String (List WNode) :=
  let ids := kahnOrderIds nodes edges
  if ids.length = nodes.length then
    .ok (ids.filterMap (fun i => nodes.find? (fun n => n.id == i)))
  else
    .error "Cycle detected or invalid workflow DAG"

/-! ### Node dispatcher (`workflow_engine.execute_node`) -/

/-- One entry of a manifest operation field's `options`. -/
structure MOption where
  id : String
  method : Option String

/-- One entry of a manifest's `fields`. -/
structure MField where
  key : String
  options : List MOption

/-- A node-type manifest.  `url`/`method` carry the values of
`manifest.get('action', {}).get('url', '')` and `.get('method', 'GET')`
with their Python defaults already applied. -/
structure Manifest where
  url : String
  method : String
  fields : List MField

/-- Python `.upper()` (ASCII). -/
def pyUpper (s : String) : String := s.map Char.toUpper

/-- Python `opt['id'] == operation`: a string compares equal only to the
same string. -/
def pyEqStr (v : Value) (s : String) : Bool :=
  match v with
  | .str t => t == s
  | _ => false

/-- `str.lstrip('/')`. -/
def lstripSlash (cs : List Char) : List Char := cs.dropWhile (fun c => c == '/')

/-- `str.replace('/', '_')`. -/
def slashToUnderscore (cs : List Char) : List Char :=
  cs.map (fun c => if c == '/' then '_' else c)

/-- `op_func` as computed by `execute_node`:
`endpoint.lstrip('/').replace('/', '_')`. -/
def opFuncOf (endpoint : String) : String :=
  String.mk (slashToUnderscore (lstripSlash endpoint.toList))

/-- `op_func.split("_", 1)`: split at the first underscore.  `none` means
the one-element split (no underscore), which makes `execute_node` fall
through to the built-in branch. -/
def splitFirstUnderscore (s : String) : Option (String × String) :=
  if (s.toList.filter (fun c => c == '_')).isEmpty then none
  else
    some (String.mk (s.toList.takeWhile (fun c => !(c == '_'))),
          String.mk ((s.toList.dropWhile (fun c => !(c == '_'))).drop 1))

/-- `endpoint.startswith('/')` (kernel-reducible form). -/
def startsWithSlash (s : String) : Bool :=
  match s.toList with
  | '/' :: _ => true
  | _ => false

/-- If `cs` begins with `pat`, the remainder after it. -/
def dropPat : List Char → List Char → Option (List Char)
  | [], cs => some cs
  | _ :: _, [] => none
  | p :: ps, c :: cs => if p == c then dropPat ps cs else none

/-- Left-to-right, non-overlapping replacement of a nonempty pattern
(Python `str.replace`); fuel is the input length at the top call. -/
def replaceSub (pat rep : List Char) : Nat → List Char → List Char
  | 0, cs => cs
  | _ + 1, [] => []
  | fuel + 1, c :: cs =>
    match dropPat pat (c :: cs) with
    | some rest => rep ++ replaceSub pat rep fuel rest
    | none => c :: replaceSub pat rep fuel cs

/-- Python `s.replace(pat, rep)` for a nonempty pattern. -/
def pyReplaceAll (s pat rep : String) : String :=
  String.mk (replaceSub pat.toList rep.toList s.toList.length s.toList)

/-- Steps 1–2 of `execute_node`: the `action` url patched by the
`operation` declared on the node (when a matching manifest option
exists). -/
def patchedEndpoint (node : WNode) (manifest : Manifest) : String :=
  match assocGet node.values "operation" with
  | some opv =>
    if pyTruthy opv then
      let opField := manifest.fields.find? (fun f => f.key == "operation")
      let opOption := match opField with
        | some f => f.options.find? (fun (o : MOption) => pyEqStr opv o.id)
        | none => none
      match opOption, opv with
      | some _, .str sop => pyReplaceAll manifest.url "\x7b\x7boperation\x7d\x7d" sop
      | _, _ => manifest.url
    else manifest.url
  | none => manifest.url

/-- Step 3 of `execute_node`: run `endpoint.format(**inputs)` when the
endpoint contains both `\x7b` and `\x7d`.  `str.format` (an external,
exception-capable Python primitive) is supplied as the parameter `fmt`. -/
def computeEndpoint (fmt : String → List (String × Value) → Except String String)
    (node : WNode) (manifest : Manifest) (inputs : List (String × Value)) :
    Except String String :=
  let e := patchedEndpoint node manifest
  if e.toList.any (fun c => c == '\x7b') && e.toList.any (fun c => c == '\x7d') then
    fmt e inputs
  else .ok e

/-- A Python handler: may return a value or raise. -/
def PyHandler : Type := List (String × Value) → Except String Value

/-- The environment of externals used by dispatch and execution:
`manifests` is the loaded manifest table; `resolveH` abstracts the
`indicator_map` lookup plus the dynamic `importlib` module/attribute
resolution, keyed by `(service, func_name)`; `fmt` is `str.format`;
`now` is `datetime.utcnow().isoformat()`. -/
structure EngineEnv where
  manifests : String → Option Manifest
  resolveH : String → String → Option PyHandler
  fmt : String → List (String × Value) → Except String String
  now : String

/-- The `\x7bstatus: error, output: No handler for …\x7d` value returned
when handler resolution fails. -/
def noHandlerValue (opFunc : String) : Value :=
  .dict [("status", .str "error"), ("output", .str ("No handler for " ++ opFunc))]

/-- The fixed success value of the final fall-through `return`. -/
def emptySuccessValue : Value :=
  .dict [("status", .str "success"), ("output", .dict [])]

/-- `execute_node(node, manifest, inputs)`.  A raised Python exception is
`Except.error`. -/
def execute_node (env : EngineEnv) (node : WNode) (manifest : Manifest)
    (inputs : List (String × Value)) : Except String Value :=
  match computeEndpoint env.fmt node manifest inputs with
  | .error err => .error err
  | .ok endpoint =>
  if startsWithSlash endpoint then
    let opFunc := opFuncOf endpoint
    match splitFirstUnderscore opFunc with
    | some (service, funcName) =>
      match env.resolveH service funcName with
      | some handler => handler inputs
      | none => .ok (noHandlerValue opFunc)
    | none =>
      -- len(parts) < 2: fall through to the built-in branch
      if node.type == "IfNode" then
        let cond := (assocGet inputs "condition").getD .null
        .ok (.dict [("status", .str "success"),
          ("output", .dict [("result",
            if pyTruthy cond then (assocGet inputs "onTrue").getD .null
            else (assocGet inputs "onFalse").getD .null)])])
      else if node.type == "Scheduler" then
        .ok (.dict [("status", .str "success"),
          ("output", .dict [("scheduled_at", .str env.now)])])
      else .ok emptySuccessValue
  else
    if node.type == "IfNode" then
      let cond := (assocGet inputs "condition").getD .null
      .ok (.dict [("status", .str "success"),
        ("output", .dict [("result",
          if pyTruthy cond then (assocGet inputs "onTrue").getD .null
          else (assocGet inputs "onFalse").getD .null)])])
    else if node.type == "Scheduler" then
      .ok (.dict [("status", .str "success"),
        ("output", .dict [("scheduled_at", .str env.now)])])
    else .ok emptySuccessValue

/-! ### Execution engine (`workflow_engine.execute_workflow`) -/

/-- A `node_executions` row (insert then in-place update within a run,
node ids being unique; `finished_at` timestamps are not modelled). -/
structure NodeRow where
  node_id : String
  status : String
  input_payload : List (String × Value)
  output_payload : Option Value

/-- The observable outcome of `execute_workflow`: the `node_executions`
rows it wrote, the final in-memory context, and the exception it raised,
if any (handler exceptions are caught inside; only `topological_sort`
escapes). -/
structure EngineOut where
  rows : List NodeRow
  context : List (String × Value)
  err : Option String

/-- The dict comprehension
`\x7bk: resolve_references(v, context, node) for k, v in node['values'].items()\x7d`;
the first raising entry aborts it. -/
def resolveInputs (ctx : List (String × Value)) :
    List (String × Value) → Except String (List (String × Value))
  | [] => .ok []
  | (k, v) :: rest =>
    match resolve_references_enginecall v ctx with
    | .error e => .error e
    | .ok rv =>
      match resolveInputs ctx rest with
      | .error e => .error e
      | .ok rrest => .ok ((k, rv) :: rrest)

/-- The `node_executions` update `.eq(run_id).eq(node_id)`. -/
def updateRow (rows : List NodeRow) (nid : String) (status : String) (out : Value) :
    List NodeRow :=
  rows.map (fun r =>
    if r.node_id == nid then ⟨r.node_id, status, r.input_payload, some out⟩ else r)

/-- The failure payload `\x7b'error': str(e), 'trace': …\x7d` (the
traceback text is not modelled). -/
def errorPayload (e : String) : Value :=
  .dict [("error", .str e), ("trace", .str "<traceback>")]

/-- The per-node loop of `execute_workflow` over the topological order:
skip `Scheduler` nodes, `continue` on a missing manifest, otherwise
resolve inputs / insert a `running` row / dispatch / update the row, and
`break` on failure (the exception itself is caught). -/
def runNodes (env : EngineEnv) (user_id : String) :
    List WNode → List (String × Value) → List NodeRow → EngineOut
  | [], ctx, rows => ⟨rows, ctx, none⟩
  | node :: rest, ctx, rows =>
    if node.type == "Scheduler" then runNodes env user_id rest ctx rows
    else
      match env.manifests node.type with
      | none => runNodes env user_id rest ctx rows
      | some manifest =>
        match resolveInputs ctx node.values with
        | .error e =>
          -- exception before the insert: the update matches no row; break
          ⟨updateRow rows node.id "failed" (errorPayload e), ctx, none⟩
        | .ok resolved =>
          let inputs := assocSet (assocSet resolved "user_id" (.str user_id))
            "credential_id" ((assocGet node.values "credential_id").getD .null)
          let rows1 := rows ++ [⟨node.id, "running", inputs, none⟩]
          match execute_node env node manifest inputs with
          | .ok result =>
            runNodes env user_id rest (assocSet ctx node.id result)
              (updateRow rows1 node.id "success" result)
          | .error e =>
            ⟨updateRow rows1 node.id "failed" (errorPayload e), ctx, none⟩

/-- `execute_workflow(workflow_id, run_id)` with the workflow row already
fetched and decoded (`nodes`, `edges`, `user_id` are its fields). -/
def execute_workflow (env : EngineEnv) (nodes : List WNode) (edges : List WEdge)
    (user_id : String) : EngineOut :=
  match topological_sort nodes edges with
  | .error e => ⟨[], [], some e⟩
  | .ok order => runNodes env user_id order [] []

/-! ### Run coordinator (`queue.run_job`) -/

/-- A write against the `workflow_runs` table. -/
inductive RunWrite where
  | insertRunning
  | updateStatus (s : String)
deriving DecidableEq

/-- `run_job(workflow_id)`: insert the `running` run row (when the store
returns no data the run is abandoned), execute, then write exactly one
completion status — `success` when `execute_workflow` returns, `failed`
when it raises. -/
def run_job (insertOk : Bool) (engineOut : EngineOut) : List RunWrite × Option EngineOut :=
  if insertOk then
    match engineOut.err with
    | none => ([.insertRunning, .updateStatus "success"], some engineOut)
    | some _ => ([.insertRunning, .updateStatus "failed"], some engineOut)
  else ([.insertRunning], none)

/-! ## Shared fixtures and helper lemmas -/

/-- Success payload used by the test handlers. -/
def okPayload : Value := .dict [("status", .str "success"), ("output", .dict [("x", .int 1)])]

/-- A concrete environment: manifests for types `T` (handler `svc/step`,
succeeds), `TB` (handler `svc/boom`, raises) and `N` (no handler
resolves); format is the identity. -/
def envFix : EngineEnv :=
  ⟨fun t => if t == "T" then some ⟨"/svc/step", "GET", []⟩
            else if t == "TB" then some ⟨"/svc/boom", "GET", []⟩
            else if t == "N" then some ⟨"/svc/nope", "GET", []⟩
            else none,
   fun sv fn =>
     if sv == "svc" && fn == "step" then some (fun _ => .ok okPayload)
     else if sv == "svc" && fn == "boom" then some (fun _ => .error "boom")
     else none,
   fun s _ => .ok s, "TS"⟩

/-- An environment with no manifests and no handlers. -/
def envNone : EngineEnv := ⟨fun _ => none, fun _ _ => none, fun s _ => .ok s, "TS"⟩

/-- Skipping a node with no manifest: `continue` in the engine loop. -/
lemma runNodes_missing_manifest (env : EngineEnv) (uid : String) (node : WNode)
    (rest : List WNode) (ctx : List (String × Value)) (rows : List NodeRow)
    (hns : node.type ≠ "Scheduler") (hmf : env.manifests node.type = none) :
    runNodes env uid (node :: rest) ctx rows = runNodes env uid rest ctx rows := by
  have hb : (node.type == "Scheduler") = false := by
    simp [hns]
  simp [runNodes, hb, hmf]

/-- The engine treats any normal dispatcher return as a success: the row
is updated to `success`, the result enters the context and the loop
continues with the remaining nodes. -/
lemma runNodes_dispatch_ok (env : EngineEnv) (uid : String) (node : WNode)
    (rest : List WNode) (ctx : List (String × Value)) (rows : List NodeRow)
    (m : Manifest) (resolved inputs : List (String × Value)) (result : Value)
    (hns : node.type ≠ "Scheduler") (hmf : env.manifests node.type = some m)
    (hres : resolveInputs ctx node.values = .ok resolved)
    (hinp : inputs = assocSet (assocSet resolved "user_id" (.str uid))
      "credential_id" ((assocGet node.values "credential_id").getD .null))
    (hex : execute_node env node m inputs = .ok result) :
    runNodes env uid (node :: rest) ctx rows =
      runNodes env uid rest (assocSet ctx node.id result)
        (updateRow (rows ++ [⟨node.id, "running", inputs, none⟩]) node.id "success" result) := by
  have hb : (node.type == "Scheduler") = false := by
    simp [hns]
  simp only [runNodes, hb, Bool.false_eq_true, if_false, hmf, hres]
  rw [← hinp]
  rw [hex]

/-- A dispatcher exception halts the loop after the `failed` update. -/
lemma runNodes_dispatch_raises (env : EngineEnv) (uid : String) (node : WNode)
    (rest : List WNode) (ctx : List (String × Value)) (rows : List NodeRow)
    (m : Manifest) (resolved inputs : List (String × Value)) (e : String)
    (hns : node.type ≠ "Scheduler") (hmf : env.manifests node.type = some m)
    (hres : resolveInputs ctx node.values = .ok resolved)
    (hinp : inputs = assocSet (assocSet resolved "user_id" (.str uid))
      "credential_id" ((assocGet node.values "credential_id").getD .null))
    (hex : execute_node env node m inputs = .error e) :
    runNodes env uid (node :: rest) ctx rows =
      ⟨updateRow (rows ++ [⟨node.id, "running", inputs, none⟩]) node.id "failed" (errorPayload e),
       ctx, none⟩ := by
  have hb : (node.type == "Scheduler") = false := by
    simp [hns]
  simp only [runNodes, hb, Bool.false_eq_true, if_false, hmf, hres]
  rw [← hinp]
  rw [hex]

/-- Dispatch falls through to the silent empty success when the endpoint
does not start with `/`, or when its underscore-joined name has no
underscore, provided the node is not one of the two built-in types. -/
lemma execute_node_fallthrough (env : EngineEnv) (node : WNode) (manifest : Manifest)
    (inputs : List (String × Value)) (e : String)
    (he : computeEndpoint env.fmt node manifest inputs = .ok e)
    (hcond : startsWithSlash e = false ∨ splitFirstUnderscore (opFuncOf e) = none)
    (hif : node.type ≠ "IfNode") (hsch : node.type ≠ "Scheduler") :
    execute_node env node manifest inputs = .ok emptySuccessValue := by
  have hbif : (node.type == "IfNode") = false := by simp [hif]
  have hbsch : (node.type == "Scheduler") = false := by simp [hsch]
  rcases hcond with hsl | hsplit
  · simp [execute_node, he, hsl, hbif, hbsch]
  · by_cases hsl : startsWithSlash e = true
    · simp [execute_node, he, hsl, hsplit, hbif, hbsch]
    · simp at hsl
      simp [execute_node, he, hsl, hbif, hbsch]

/-- Handler resolution failure yields the structured error value, not an
exception. -/
lemma execute_node_no_handler (env : EngineEnv) (node : WNode) (manifest : Manifest)
    (inputs : List (String × Value)) (e sv fn : String)
    (he : computeEndpoint env.fmt node manifest inputs = .ok e)
    (hsl : startsWithSlash e = true)
    (hsplit : splitFirstUnderscore (opFuncOf e) = some (sv, fn))
    (hrh : env.resolveH sv fn = none) :
    execute_node env node manifest inputs = .ok (noHandlerValue (opFuncOf e)) := by
  simp [execute_node, he, hsl, hsplit, hrh]

/-- `x or 0` is the identity on integers. -/
lemma pyOrInt_zero (x : Int) : pyOrInt x 0 = x := by
  unfold pyOrInt
  split
  · omega
  · rfl

/-- `x or 1` is the identity on positive integers. -/
lemma pyOrInt_one_of_pos (x : Int) (h : 1 ≤ x) : pyOrInt x 1 = x := by
  unfold pyOrInt
  split
  · omega
  · rfl

/-- C5: for every ScheduleSpec (a schedule object whose `count`, when
present, is at least 1), the translation returns exactly the cron
expression of the spec's table — Minutes `*/count * * * *`, Hours
`minute */count * * *`, Days `minute hour */count * *`, Weeks
`minute hour * * *` (count unused), Months `minute hour count * *`
(count reused as day-of-month) — with `minute` and `hour` defaulting to
0 and `count` to 1 when absent; any schedule whose `interval` is not one
of the five recognized values fails with an exception. -/
theorem schedule_to_cron_table (s : ScheduleObj)
    (hc : ∀ c, s.count = some c → 1 ≤ c) :
    (s.interval = some "Minutes" →
      schedule_obj_to_cron (some s) =
        .ok ("*/" ++ toString (s.count.getD 1) ++ " * * * *"))
  ∧ (s.interval = some "Hours" →
      schedule_obj_to_cron (some s) =
        .ok (toString (s.minute.getD 0) ++ " */" ++ toString (s.count.getD 1) ++ " * * *"))
  ∧ (s.interval = some "Days" →
      schedule_obj_to_cron (some s) =
        .ok (toString (s.minute.getD 0) ++ " " ++ toString (s.hour.getD 0) ++ " */" ++
             toString (s.count.getD 1) ++ " * *"))
  ∧ (s.interval = some "Weeks" →
      schedule_obj_to_cron (some s) =
        .ok (toString (s.minute.getD 0) ++ " " ++ toString (s.hour.getD 0) ++ " * * *"))
  ∧ (s.interval = some "Months" →
      schedule_obj_to_cron (some s) =
        .ok (toString (s.minute.getD 0) ++ " " ++ toString (s.hour.getD 0) ++ " " ++
             toString (s.count.getD 1) ++ " * *"))
  ∧ (∀ t : Option ScheduleObj,
      (∀ u, t = some u → u.interval ≠ some "Minutes" ∧ u.interval ≠ some "Hours" ∧
        u.interval ≠ some "Days" ∧ u.interval ≠ some "Weeks" ∧ u.interval ≠ some "Months") →
      ∃ e, schedule_obj_to_cron t = .error e) := by
  have hcount : pyOrInt (s.count.getD 1) 1 = s.count.getD 1 := by
    cases hcc : s.count with
    | none => rfl
    | some c => exact pyOrInt_one_of_pos c (hc c hcc)
  refine ⟨?_, ?_, ?_, ?_, ?_, ?_⟩
  · intro h
    simp [schedule_obj_to_cron, h, hcount, pyOrInt_zero]
  · intro h
    simp [schedule_obj_to_cron, h, hcount, pyOrInt_zero]
  · intro h
    simp [schedule_obj_to_cron, h, hcount, pyOrInt_zero]
  · intro h
    simp [schedule_obj_to_cron, h, hcount, pyOrInt_zero]
  · intro h
    simp [schedule_obj_to_cron, h, hcount, pyOrInt_zero]
  · intro t ht
    cases t with
    | none => exact ⟨_, rfl⟩
    | some u =>
      obtain ⟨h1, h2, h3, h4, h5⟩ := ht u rfl
      exact ⟨"Unsupported interval: " ++ intervalStr u.interval,
        by simp [schedule_obj_to_cron, h1, h2, h3, h4, h5]⟩

/-- Witness for C5 at the spec's own example
`translate(\x7binterval: Hours, count: 2, minute: 30\x7d)`. -/
theorem schedule_to_cron_table_witness :
    schedule_obj_to_cron (some ⟨some "Hours", some 2, none, some 30⟩) =
      .ok "30 */2 * * *" := by
  have h := (schedule_to_cron_table ⟨some "Hours", some 2, none, some 30⟩
    (by intro c hcc; injection hcc with h2; omega)).2.1 rfl
  exact h.trans (congrArg Except.ok (by decide))

/-- C9: for every run, the coordinator writes the `running` insert
exactly once, performs at most one completion write, whose value is
`success` or `failed`, and never writes `running` as an update — so a
run's recorded status only ever moves `running → success` or
`running → failed`. -/
theorem run_status_transitions (insertOk : Bool) (out : EngineOut) :
    ((run_job insertOk out).1 = [RunWrite.insertRunning] ∨
     (run_job insertOk out).1 = [RunWrite.insertRunning, RunWrite.updateStatus "success"] ∨
     (run_job insertOk out).1 = [RunWrite.insertRunning, RunWrite.updateStatus "failed"])
  ∧ ((run_job insertOk out).1.count RunWrite.insertRunning = 1)
  ∧ (((run_job insertOk out).1.filter
        (fun w => match w with | .updateStatus _ => true | _ => false)).length ≤ 1)
  ∧ (RunWrite.updateStatus "running" ∉ (run_job insertOk out).1)
  ∧ (∀ st, RunWrite.updateStatus st ∈ (run_job insertOk out).1 →
        st = "success" ∨ st = "failed") := by
  obtain ⟨rows, ctx, err⟩ := out
  cases insertOk with
  | false =>
    cases err with
    | none =>
      have htr : (run_job false ⟨rows, ctx, none⟩).1 = [RunWrite.insertRunning] := rfl
      refine ⟨Or.inl htr, ?_, ?_, ?_, ?_⟩
      · rw [htr]
        decide
      · rw [htr]
        decide
      · rw [htr]
        decide
      · intro st hst
        rw [htr] at hst
        simp at hst
    | some e =>
      have htr : (run_job false ⟨rows, ctx, some e⟩).1 = [RunWrite.insertRunning] := rfl
      refine ⟨Or.inl htr, ?_, ?_, ?_, ?_⟩
      · rw [htr]
        decide
      · rw [htr]
        decide
      · rw [htr]
        decide
      · intro st hst
        rw [htr] at hst
        simp at hst
  | true =>
    cases err with
    | none =>
      have htr : (run_job true ⟨rows, ctx, none⟩).1 =
          [RunWrite.insertRunning, RunWrite.updateStatus "success"] := rfl
      refine ⟨Or.inr (Or.inl htr), ?_, ?_, ?_, ?_⟩
      · rw [htr]
        decide
      · rw [htr]
        decide
      · rw [htr]
        decide
      · intro st hst
        rw [htr] at hst
        simp at hst
        exact Or.inl hst
    | some e =>
      have htr : (run_job true ⟨rows, ctx, some e⟩).1 =
          [RunWrite.insertRunning, RunWrite.updateStatus "failed"] := rfl
      refine ⟨Or.inr (Or.inr htr), ?_, ?_, ?_, ?_⟩
      · rw [htr]
        decide
      · rw [htr]
        decide
      · rw [htr]
        decide
      · intro st hst
        rw [htr] at hst
        simp at hst
        exact Or.inr hst

/-- Projection used to compare string values without a `DecidableEq
Value` instance. -/
def strOf : Value → String
  | .str s => s
  | _ => ""

/-- C4 (counterexample to the claim as stated): the claim's walking
rules make `items[-4]` on a 3-element list an out-of-range index, whose
resolution must abort and leave the template unchanged; the code instead
resolves it to the *last* element, because `len(result) + key` is
negative and Python's indexing wraps it a second time. -/
theorem resolver_negative_index_counterexample :
    resolve_references (.str "\x7b\x7b $json.items[-4] \x7d\x7d")
      [("self", .dict [("items", .list [.int 1, .int 2, .int 3])])] "self" = .str "3"
  ∧ Value.str "3" ≠ Value.str "\x7b\x7b $json.items[-4] \x7d\x7d" :=
  ⟨rfl, fun h => absurd (congrArg strOf h) (by decide)⟩

/-- C4 (amended): `resolve_references` replaces each `$json`/`$('Name')`
reference independently in one left-to-right pass, resolving against
`context[self_node]` resp. `context[Name]`; mapping steps look keys up,
list steps use the integer key offset by the list length and then once
more by Python's indexing rule when still negative (so `-1` is the last
element, and indices in `[-2·len, -len)` resolve instead of aborting);
a walk that aborts (missing source node, missing key, index outside
`[-2·len, len)`, or type mismatch) leaves the original text unchanged
with the surrounding text preserved; scalars are rendered with `str`,
mappings/sequences with their JSON serialization; non-string input or a
string without `\x7b\x7b` is returned unchanged, and the function always
returns a string on string input (it does not throw). -/
theorem resolver_pass_behaviour :
    (∀ (v : Value) (ctx : List (String × Value)) (sn : String),
      (∀ s, v ≠ Value.str s) → resolve_references v ctx sn = v)
  ∧ (∀ (s : String) (ctx : List (String × Value)) (sn : String),
      hasDoubleBrace s.toList = false → resolve_references (.str s) ctx sn = .str s)
  ∧ (∀ (s : String) (ctx : List (String × Value)) (sn : String),
      ∃ o, resolve_references (.str s) ctx sn = .str o)
  ∧ (∀ (xs : List Value) (k : Int),
      walkStep (.list xs) (.int k) =
        (if 0 ≤ k ∧ k < (xs.length : Int) then denull (xs.get? k.toNat)
         else if -(xs.length : Int) ≤ k ∧ k < 0 then
           denull (xs.get? (k + (xs.length : Int)).toNat)
         else if -(2 * (xs.length : Int)) ≤ k ∧ k < -(xs.length : Int) then
           denull (xs.get? (k + (xs.length : Int) + (xs.length : Int)).toNat)
         else none))
  ∧ resolve_references (.str "\x7b\x7b $json.a.b \x7d\x7d")
      [("self", .dict [("a", .dict [("b", .int 5)])])] "self" = .str "5"
  ∧ resolve_references (.str "\x7b\x7b $json.missing \x7d\x7d")
      [("self", .dict [])] "self" = .str "\x7b\x7b $json.missing \x7d\x7d"
  ∧ resolve_references (.str "\x7b\x7b $json.items[-1] \x7d\x7d")
      [("self", .dict [("items", .list [.int 1, .int 2, .int 3])])] "self" = .str "3"
  ∧ resolve_references (.str "\x7b\x7b $('A').json.x \x7d\x7d")
      [("A", .dict [("x", .int 1)])] "other" = .str "1"
  ∧ resolve_references (.str "\x7b\x7b $('B').json.x \x7d\x7d") [] "self" =
      .str "\x7b\x7b $('B').json.x \x7d\x7d"
  ∧ resolve_references (.str "a \x7b\x7b $json.x \x7d\x7d b \x7b\x7b $json.m \x7d\x7d c")
      [("self", .dict [("x", .int 1)])] "self" =
      .str "a 1 b \x7b\x7b $json.m \x7d\x7d c"
  ∧ resolve_references (.str "\x7b\x7b $json.obj \x7d\x7d")
      [("self", .dict [("obj", .dict [("a", .int 1)])])] "self" =
      .str (jsonDumps (.dict [("a", .int 1)])) := by
  refine ⟨?_, ?_, ?_, ?_, rfl, rfl, rfl, rfl, rfl, rfl, ?_⟩
  · intro v ctx sn h
    cases v with
    | str s => exact absurd rfl (h s)
    | null => rfl
    | bool b => rfl
    | int n => rfl
    | list xs => rfl
    | dict kvs => rfl
  · intro s ctx sn h
    simp only [String.toList] at h
    simp [resolve_references, h]
  · intro s ctx sn
    by_cases h : hasDoubleBrace s.data
    · exact ⟨String.mk (subScan ctx sn s.toList.length s.toList),
        by simp [resolve_references, h]⟩
    · simp at h
      exact ⟨s, by simp [resolve_references, h]⟩
  · intro xs k
    simp only [walkStep, pyListIndex]
    by_cases h0 : 0 ≤ k
    · simp only [if_pos h0]
      split_ifs <;> first | rfl | omega
    · simp only [if_neg h0]
      split_ifs <;> first | rfl | omega
  · show Value.str (String.mk ((jsonDumps (.dict [("a", .int 1)])).toList ++ [])) = _
    rw [List.append_nil]
    rfl

/-- Witness for C4: the hypothesis-bearing conjuncts applied at concrete
inputs — a non-string passes through, and a template-free string passes
through. -/
theorem resolver_pass_behaviour_witness :
    resolve_references (.int 5) [] "self" = .int 5
  ∧ resolve_references (.str "plain") [] "self" = .str "plain" :=
  ⟨resolver_pass_behaviour.1 (.int 5) [] "self" (fun s h => by cases h),
   resolver_pass_behaviour.2.1 "plain" [] "self" (by decide)⟩

/-- The `status` entry of a structured result dict (observer used to
separate distinct result values). -/
def statusFieldOf : Value → String
  | .dict (("status", .str s) :: _) => s
  | _ => ""

/-- C6 (counterexample to the claim as stated): a run in which the first
node's dispatch target has no handler.  The dispatcher's returned error
value is recorded as a *success* and the run continues to the next node,
instead of being recorded as a failure and stopping the run. -/
theorem no_handler_recorded_success_counterexample :
    ((execute_workflow envFix [⟨"N1", "N", []⟩, ⟨"N2", "T", []⟩]
        [⟨"N1", "N2"⟩] "u").rows.map (fun r => (r.node_id, r.status)) =
      [("N1", "success"), ("N2", "success")])
  ∧ (∀ r ∈ (execute_workflow envFix [⟨"N1", "N", []⟩, ⟨"N2", "T", []⟩]
        [⟨"N1", "N2"⟩] "u").rows, r.status ≠ "failed") := by
  constructor
  · rfl
  · decide

/-- C6 (amended): when no handler resolves, the dispatcher returns the
structured `\x7bstatus: error, output: No handler for <name>\x7d` value
without raising; the engine does not inspect returned values, so such a
node is recorded as `success`, its error value becomes its context
entry, and the run continues with the remaining nodes. -/
theorem no_handler_error_value_engine_continues :
    (∀ (env : EngineEnv) (node : WNode) (manifest : Manifest)
        (inputs : List (String × Value)) (e sv fn : String),
      computeEndpoint env.fmt node manifest inputs = .ok e →
      startsWithSlash e = true →
      splitFirstUnderscore (opFuncOf e) = some (sv, fn) →
      env.resolveH sv fn = none →
      execute_node env node manifest inputs = .ok (noHandlerValue (opFuncOf e)))
  ∧ (∀ (env : EngineEnv) (uid : String) (node : WNode) (rest : List WNode)
        (ctx : List (String × Value)) (rows : List NodeRow) (m : Manifest)
        (resolved inputs : List (String × Value)) (result : Value),
      node.type ≠ "Scheduler" →
      env.manifests node.type = some m →
      resolveInputs ctx node.values = .ok resolved →
      inputs = assocSet (assocSet resolved "user_id" (.str uid))
        "credential_id" ((assocGet node.values "credential_id").getD .null) →
      execute_node env node m inputs = .ok result →
      runNodes env uid (node :: rest) ctx rows =
        runNodes env uid rest (assocSet ctx node.id result)
          (updateRow (rows ++ [⟨node.id, "running", inputs, none⟩]) node.id "success" result)) :=
  ⟨fun env node manifest inputs e sv fn he hsl hsplit hrh =>
      execute_node_no_handler env node manifest inputs e sv fn he hsl hsplit hrh,
   fun env uid node rest ctx rows m resolved inputs result hns hmf hres hinp hex =>
      runNodes_dispatch_ok env uid node rest ctx rows m resolved inputs result
        hns hmf hres hinp hex⟩

/-- Witness for C6: both parts applied at concrete inputs — the missing
handler for `/svc/nope` yields the structured error value, and the
engine records the normal return of node `Z2` as a success and moves on. -/
theorem no_handler_error_value_engine_continues_witness :
    execute_node envFix ⟨"Z", "N", []⟩ ⟨"/svc/nope", "GET", []⟩ [] =
      .ok (noHandlerValue "svc_nope")
  ∧ runNodes envFix "u" [⟨"Z2", "T", []⟩] [] [] =
      runNodes envFix "u" []
        (assocSet [] "Z2" okPayload)
        (updateRow ([] ++ [⟨"Z2", "running",
          [("user_id", Value.str "u"), ("credential_id", Value.null)], none⟩])
          "Z2" "success" okPayload) :=
  ⟨no_handler_error_value_engine_continues.1 envFix ⟨"Z", "N", []⟩
      ⟨"/svc/nope", "GET", []⟩ [] "/svc/nope" "svc" "nope" rfl (by decide) rfl rfl,
   no_handler_error_value_engine_continues.2 envFix "u" ⟨"Z2", "T", []⟩ [] [] []
      ⟨"/svc/step", "GET", []⟩ []
      [("user_id", Value.str "u"), ("credential_id", Value.null)] okPayload
      (by decide) rfl rfl rfl rfl⟩

/-- C8 (counterexample to the claim as stated): node `M` has no manifest;
the claim's run-halting behaviour would leave `B2` unexecuted, but `B2`
runs and succeeds (and, as the claim correctly states, `M` itself gets
no row). -/
theorem missing_manifest_continues_counterexample :
    ((execute_workflow envFix [⟨"M", "Missing", []⟩, ⟨"B2", "T", []⟩]
        [⟨"M", "B2"⟩] "u").rows.map (fun r => (r.node_id, r.status)) =
      [("B2", "success")])
  ∧ (∀ r ∈ (execute_workflow envFix [⟨"M", "Missing", []⟩, ⟨"B2", "T", []⟩]
        [⟨"M", "B2"⟩] "u").rows, r.node_id ≠ "M") := by
  constructor
  · rfl
  · decide

/-- C8 (amended): a node whose type has no manifest is skipped — it is
not dispatched and no NodeExecution row is written for it — and the run
*continues* with the subsequent nodes in the topological order (the
`continue` branch of the engine loop). -/
theorem missing_manifest_skips_node_and_continues
    (env : EngineEnv) (uid : String) (node : WNode) (rest : List WNode)
    (ctx : List (String × Value)) (rows : List NodeRow)
    (hns : node.type ≠ "Scheduler") (hmf : env.manifests node.type = none) :
    runNodes env uid (node :: rest) ctx rows = runNodes env uid rest ctx rows :=
  runNodes_missing_manifest env uid node rest ctx rows hns hmf

/-- Witness for C8 at a concrete skipped node. -/
theorem missing_manifest_skips_node_and_continues_witness :
    runNodes envFix "u" [⟨"M", "Missing", []⟩, ⟨"B2", "T", []⟩] [] [] =
      runNodes envFix "u" [⟨"B2", "T", []⟩] [] [] :=
  missing_manifest_skips_node_and_continues envFix "u" ⟨"M", "Missing", []⟩
    [⟨"B2", "T", []⟩] [] [] (by decide) rfl

/-- C10 (counterexample to the claim as stated): the dispatch target
`/foo_bar` starts with `/` and its path has no second segment after the
service name (it is a single path segment), yet `execute_node` does not
return the silent empty success: the underscore inside the segment makes
`split("_", 1)` two-part, so the handler branch runs and returns the
structured `No handler` error value. -/
theorem underscored_single_segment_counterexample :
    execute_node envNone ⟨"Z", "X", []⟩ ⟨"/foo_bar", "GET", []⟩ [] =
      .ok (noHandlerValue "foo_bar")
  ∧ noHandlerValue "foo_bar" ≠ emptySuccessValue
  ∧ ("/foo_bar".toList.dropWhile (fun c => c == '/')).all (fun c => !(c == '/')) = true := by
  refine ⟨rfl, fun h => absurd (congrArg statusFieldOf h) (by decide), by decide⟩

/-- C10 (amended): whenever the dispatch-target computation succeeds with
an endpoint that either does not start with `/` or whose underscore-
joined name contains no underscore, and the node's type is neither
`IfNode` nor `Scheduler`, `execute_node` returns
`\x7bstatus: success, output: \x7b\x7d\x7d` — no error value and no
exception — and the engine then records the node as succeeded with that
empty-output payload written into the run context. -/
theorem fallthrough_silent_empty_success :
    (∀ (env : EngineEnv) (node : WNode) (manifest : Manifest)
        (inputs : List (String × Value)) (e : String),
      computeEndpoint env.fmt node manifest inputs = .ok e →
      (startsWithSlash e = false ∨ splitFirstUnderscore (opFuncOf e) = none) →
      node.type ≠ "IfNode" → node.type ≠ "Scheduler" →
      execute_node env node manifest inputs = .ok emptySuccessValue)
  ∧ (∀ (env : EngineEnv) (uid : String) (node : WNode) (rest : List WNode)
        (ctx : List (String × Value)) (rows : List NodeRow) (m : Manifest)
        (resolved inputs : List (String × Value)),
      node.type ≠ "Scheduler" →
      env.manifests node.type = some m →
      resolveInputs ctx node.values = .ok resolved →
      inputs = assocSet (assocSet resolved "user_id" (.str uid))
        "credential_id" ((assocGet node.values "credential_id").getD .null) →
      execute_node env node m inputs = .ok emptySuccessValue →
      runNodes env uid (node :: rest) ctx rows =
        runNodes env uid rest (assocSet ctx node.id emptySuccessValue)
          (updateRow (rows ++ [⟨node.id, "running", inputs, none⟩])
            node.id "success" emptySuccessValue)) :=
  ⟨fun env node manifest inputs e he hcond hif hsch =>
      execute_node_fallthrough env node manifest inputs e he hcond hif hsch,
   fun env uid node rest ctx rows m resolved inputs hns hmf hres hinp hex =>
      runNodes_dispatch_ok env uid node rest ctx rows m resolved inputs
        emptySuccessValue hns hmf hres hinp hex⟩

/-- Witness for C10 at concrete inputs: an endpoint without a leading
slash, and one with a single slash-free segment and no underscore. -/
theorem fallthrough_silent_empty_success_witness :
    execute_node envNone ⟨"Z", "X", []⟩ ⟨"plain", "GET", []⟩ [] = .ok emptySuccessValue
  ∧ execute_node envNone ⟨"Z", "X", []⟩ ⟨"/plain", "GET", []⟩ [] = .ok emptySuccessValue :=
  ⟨fallthrough_silent_empty_success.1 envNone ⟨"Z", "X", []⟩ ⟨"plain", "GET", []⟩ []
      "plain" rfl (Or.inl (by decide)) (by decide) (by decide),
   fallthrough_silent_empty_success.1 envNone ⟨"Z", "X", []⟩ ⟨"/plain", "GET", []⟩ []
      "/plain" rfl (Or.inr rfl) (by decide) (by decide)⟩

/-- C7 (code bug): `execute_workflow` passes the node *dict* — not the
node id — as `self_node` (line 85), violating `resolve_references`' own
documented parameter contract.  A `$json` self-reference therefore
raises `TypeError: unhashable type` instead of resolving against
`context[node.id]`: the node fails before its insert (no NodeExecution
row at all), the run stops, and the swallowed exception leaves the
engine returning normally.  Had the id been passed as documented, the
reference would simply pass through unchanged (third conjunct). -/
theorem self_reference_typeerror_aborts_node :
    execute_workflow envFix
      [⟨"X", "T", [("f", .str "\x7b\x7b $json.a \x7d\x7d")]⟩, ⟨"Y", "T", []⟩]
      [⟨"X", "Y"⟩] "u" = ⟨[], [], none⟩
  ∧ resolve_references_enginecall (.str "\x7b\x7b $json.a \x7d\x7d") [] =
      .error "TypeError: unhashable type: dict"
  ∧ resolve_references (.str "\x7b\x7b $json.a \x7d\x7d") [] "X" =
      .str "\x7b\x7b $json.a \x7d\x7d" :=
  ⟨rfl, rfl, rfl⟩

/-- C1 (code bug): in the three-node chain `A → B → C` where `B`'s
handler raises, the engine records `B` as failed and executes no further
node (`C` gets no row) — but `execute_workflow` swallows the failure and
returns normally, so the coordinator records the run's final status as
`success`, not `failed`. -/
theorem handler_exception_fail_fast_but_run_success :
    ((run_job true (execute_workflow envFix
        [⟨"A", "T", []⟩, ⟨"B", "TB", []⟩, ⟨"C", "T", []⟩]
        [⟨"A", "B"⟩, ⟨"B", "C"⟩] "u")).1 =
      [RunWrite.insertRunning, RunWrite.updateStatus "success"])
  ∧ ((execute_workflow envFix
        [⟨"A", "T", []⟩, ⟨"B", "TB", []⟩, ⟨"C", "T", []⟩]
        [⟨"A", "B"⟩, ⟨"B", "C"⟩] "u").rows.map (fun r => (r.node_id, r.status)) =
      [("A", "success"), ("B", "failed")])
  ∧ (∀ r ∈ (execute_workflow envFix
        [⟨"A", "T", []⟩, ⟨"B", "TB", []⟩, ⟨"C", "T", []⟩]
        [⟨"A", "B"⟩, ⟨"B", "C"⟩] "u").rows, r.node_id ≠ "C") := by
  refine ⟨rfl, rfl, by decide⟩

/-! ## Correctness development for `topological_sort` (C2, C3) -/

/-- `a` occurs strictly before `b` in the list `l`. -/
def Before (l : List String) (a b : String) : Prop :=
  ∃ l1 l2 l3, l = l1 ++ a :: l2 ++ b :: l3

/-- The edge relation of a workflow graph. -/
def EdgeRel (edges : List WEdge) (s t : String) : Prop :=
  ∃ e ∈ edges, e.source = s ∧ e.target = t

/-- Acyclicity of the edge relation, as well-foundedness (for a finite
graph this is equivalent to the absence of directed cycles). -/
def Acyclic (edges : List WEdge) : Prop := WellFounded (EdgeRel edges)

/-- A decidable chain of edges `a → x₁ → … → xₙ → b`; `chainEdgesB edges
a xs a = true` exhibits a concrete directed cycle. -/
def chainEdgesB (edges : List WEdge) : String → List String → String → Bool
  | a, [], b => edges.any (fun e => e.source == a && e.target == b)
  | a, x :: xs, b => edges.any (fun e => e.source == a && e.target == x) && chainEdgesB edges x xs b

/-- Number of edges into `m` whose source has not been popped yet. -/
def inCount (edges : List WEdge) (order : List String) (m : String) : Nat :=
  (edges.filter (fun e => e.target == m && !(decide (e.source ∈ order)))).length

/-- Number of edges from `nid` to `m`. -/
def outCount (edges : List WEdge) (nid m : String) : Nat :=
  (edges.filter (fun e => e.source == nid && e.target == m)).length

lemma before_append_right (l l2 : List String) (a b : String)
    (h : Before l a b) : Before (l ++ l2) a b := by
  obtain ⟨x, y, z, rfl⟩ := h
  exact ⟨x, y, z ++ l2, by simp⟩

lemma before_of_mem_append (l : List String) (a b : String) (h : a ∈ l) :
    Before (l ++ [b]) a b := by
  obtain ⟨x, y, rfl⟩ := List.append_of_mem h
  exact ⟨x, y, [], by simp⟩

lemma before_mem_left (l : List String) (a b : String) (h : Before l a b) : a ∈ l := by
  obtain ⟨x, y, z, rfl⟩ := h
  simp

lemma before_mem_right (l : List String) (a b : String) (h : Before l a b) : b ∈ l := by
  obtain ⟨x, y, z, rfl⟩ := h
  simp

lemma indexOf_append_cons_self (l1 t : List String) (a : String) (h : a ∉ l1) :
    (l1 ++ a :: t).indexOf a = l1.length := by
  induction l1 with
  | nil => simp
  | cons c l1 ih =>
    have hca : c ≠ a := fun hc => h (hc ▸ List.mem_cons_self c l1)
    have hna : a ∉ l1 := fun hm => h (List.mem_cons_of_mem c hm)
    simp only [List.cons_append, List.length_cons]
    rw [List.indexOf_cons_ne _ hca, ih hna]

lemma indexOf_append_of_not_mem (l1 t : List String) (b : String) (h : b ∉ l1) :
    (l1 ++ t).indexOf b = l1.length + t.indexOf b := by
  induction l1 with
  | nil => simp
  | cons c l1 ih =>
    have hcb : c ≠ b := fun hc => h (hc ▸ List.mem_cons_self c l1)
    have hnb : b ∉ l1 := fun hm => h (List.mem_cons_of_mem c hm)
    simp only [List.cons_append, List.length_cons]
    rw [List.indexOf_cons_ne _ hcb, ih hnb]
    omega

lemma nodup_middle_not_mem (l1 l2 : List String) (a : String)
    (h : (l1 ++ a :: l2).Nodup) : a ∉ l1 ∧ a ∉ l2 := by
  induction l1 with
  | nil =>
    rw [List.nil_append, List.nodup_cons] at h
    exact ⟨by simp, h.1⟩
  | cons c l1 ih =>
    rw [List.cons_append, List.nodup_cons] at h
    have hrec := ih h.2
    have hca : c ≠ a := by
      intro hc
      exact h.1 (by simp [hc])
    refine ⟨?_, hrec.2⟩
    intro hm
    rcases List.mem_cons.mp hm with hm1 | hm2
    · exact hca hm1.symm
    · exact hrec.1 hm2

/-- In a duplicate-free list, `Before` gives a strict `indexOf` order. -/
lemma before_indexOf_lt (l : List String) (a b : String)
    (hnd : l.Nodup) (h : Before l a b) : l.indexOf a < l.indexOf b := by
  obtain ⟨l1, l2, l3, rfl⟩ := h
  have hshape : l1 ++ (a :: l2) ++ b :: l3 = l1 ++ a :: (l2 ++ b :: l3) := by simp
  have hnd2 : (l1 ++ a :: (l2 ++ b :: l3)).Nodup := by
    rw [← hshape]
    exact hnd
  have hanot := nodup_middle_not_mem l1 (l2 ++ b :: l3) a hnd2
  have hnd3 : ((l1 ++ a :: l2) ++ b :: l3).Nodup := by
    rw [show (l1 ++ a :: l2) ++ b :: l3 = l1 ++ (a :: l2) ++ b :: l3 by simp]
    exact hnd
  have hbnot := nodup_middle_not_mem (l1 ++ a :: l2) l3 b hnd3
  have hbnotl1 : b ∉ l1 := fun hm => hbnot.1 (by simp [hm])
  have hba : a ≠ b := by
    intro hc
    exact hbnot.1 (by simp [hc])
  have hia : (l1 ++ (a :: l2) ++ b :: l3).indexOf a = l1.length := by
    rw [hshape]
    exact indexOf_append_cons_self l1 (l2 ++ b :: l3) a hanot.1
  have hib : (l1 ++ (a :: l2) ++ b :: l3).indexOf b =
      l1.length + ((l2 ++ b :: l3).indexOf b + 1) := by
    rw [hshape]
    rw [indexOf_append_of_not_mem l1 (a :: (l2 ++ b :: l3)) b hbnotl1]
    rw [List.indexOf_cons_ne _ hba]
  rw [hia, hib]
  omega

lemma stepSuccs_fst (S : List String) :
    ∀ (ind : String → Int) (q : List String) (x : String),
      (stepSuccs S ind q).1 x = ind x - (S.count x : Int) := by
  induction S with
  | nil =>
    intro ind q x
    simp [stepSuccs]
  | cons m S ih =>
    intro ind q x
    have hcount : (m :: S).count x = S.count x + (if x = m then 1 else 0) := by
      rcases eq_or_ne x m with hmx | hmx
      · simp [hmx, List.count_cons]
      · simp [List.count_cons, hmx]
    simp only [stepSuccs]
    split
    · rw [ih]
      rcases eq_or_ne x m with hxm | hxm
      · simp only [hxm, if_pos rfl] at hcount ⊢
        rw [hcount]
        push_cast
        omega
      · simp only [if_neg hxm] at hcount ⊢
        rw [hcount]
        push_cast
        omega
    · rw [ih]
      rcases eq_or_ne x m with hxm | hxm
      · simp only [hxm, if_pos rfl] at hcount ⊢
        rw [hcount]
        push_cast
        omega
      · simp only [if_neg hxm] at hcount ⊢
        rw [hcount]
        push_cast
        omega

lemma stepSuccs_snd (S : List String) :
    ∀ (ind : String → Int) (q : List String),
      (∀ m, (S.count m : Int) ≤ ind m) →
      ∃ extra, (stepSuccs S ind q).2 = q ++ extra ∧ extra.Nodup ∧
        (∀ m, m ∈ extra ↔ 0 < S.count m ∧ ind m = (S.count m : Int)) := by
  induction S with
  | nil =>
    intro ind q hle
    exact ⟨[], by simp [stepSuccs], List.nodup_nil, by simp⟩
  | cons m S ih =>
    intro ind q hle
    have hcm : ((m :: S).count m : Int) = (S.count m : Int) + 1 := by
      simp [List.count_cons]
    have hcne : ∀ x, x ≠ m → (m :: S).count x = S.count x := by
      intro x hxm
      simp [List.count_cons, hxm]
    have hle2 : ∀ x, (S.count x : Int) ≤ (fun y => if y = m then ind y - 1 else ind y) x := by
      intro x
      by_cases hxm : x = m
      · subst hxm
        have h1 := hle x
        rw [hcm] at h1
        simp only [if_pos rfl]
        omega
      · have h1 := hle x
        rw [hcne x hxm] at h1
        simp only [if_neg hxm]
        exact h1
    simp only [stepSuccs]
    split
    case isTrue hz =>
      obtain ⟨extra, heq, hnd, hiff⟩ := ih _ (q ++ [m]) hle2
      have hcount0 : S.count m = 0 := by
        have h1 := hle2 m
        simp at h1
        omega
      refine ⟨m :: extra, ?_, ?_, ?_⟩
      · rw [heq]
        simp
      · rw [List.nodup_cons]
        refine ⟨?_, hnd⟩
        intro hmem
        obtain ⟨hpos, _⟩ := (hiff m).mp hmem
        omega
      · intro x
        rcases eq_or_ne x m with hxm | hxm
        · subst hxm
          constructor
          · intro _
            constructor
            · simp [List.count_cons]
            · rw [hcm, hcount0]
              push_cast
              omega
          · intro _
            exact List.mem_cons_self _ _
        · rw [List.mem_cons]
          have hfix : (if x = m then ind x - 1 else ind x) = ind x := if_neg hxm
          constructor
          · intro hmem
            rcases hmem with hmem | hmem
            · exact absurd hmem hxm
            · obtain ⟨h1, h2⟩ := (hiff x).mp hmem
              rw [hfix] at h2
              rw [hcne x hxm]
              exact ⟨h1, h2⟩
          · intro ⟨h1, h2⟩
            rw [hcne x hxm] at h1 h2
            right
            exact (hiff x).mpr ⟨h1, by rw [hfix]; exact h2⟩
    case isFalse hz =>
      obtain ⟨extra, heq, hnd, hiff⟩ := ih _ q hle2
      refine ⟨extra, heq, hnd, ?_⟩
      intro x
      rcases eq_or_ne x m with hxm | hxm
      · subst hxm
        have hfix : (if x = x then ind x - 1 else ind x) = ind x - 1 := if_pos rfl
        rw [hiff x, hfix, hcm]
        constructor
        · intro ⟨h1, h2⟩
          constructor
          · simp [List.count_cons]
          · omega
        · intro ⟨h1, h2⟩
          constructor
          · by_contra hc
            have : S.count x = 0 := by omega
            rw [this] at h2
            simp at h2
            omega
          · omega
      · have hfix : (if x = m then ind x - 1 else ind x) = ind x := if_neg hxm
        rw [hiff x, hfix, hcne x hxm]

lemma count_succList (edges : List WEdge) (nid m : String) :
    (succList edges nid).count m = outCount edges nid m := by
  induction edges with
  | nil => rfl
  | cons e es ih =>
    simp only [succList, outCount, List.filter] at ih ⊢
    by_cases hs : e.source = nid
    · simp only [hs, beq_self_eq_true, Bool.true_and]
      by_cases ht : e.target = m
      · simp [ht, List.count_cons, ih, outCount, succList]
      · have hbt : (e.target == m) = false := by simp [ht]
        simp [hbt, ht, List.count_cons, ih, outCount, succList]
    · have hb : (e.source == nid) = false := by simp [hs]
      simp [hb, ih, outCount, succList]

lemma indeg0_eq_inCount (edges : List WEdge) (m : String) :
    indeg0 edges m = (inCount edges [] m : Int) := by
  unfold indeg0 inCount
  norm_num

lemma inCount_pop (edges : List WEdge) (order : List String) (nid m : String)
    (hnid : nid ∉ order) :
    (inCount edges (order ++ [nid]) m : Int) =
      (inCount edges order m : Int) - (outCount edges nid m : Int) := by
  induction edges with
  | nil => rfl
  | cons e es ih =>
    simp only [inCount, outCount, List.filter] at ih ⊢
    by_cases ht : e.target = m
    · by_cases hs : e.source = nid
      · have h1 : (e.target == m && !(decide (e.source ∈ order ++ [nid]))) = false := by
          simp [hs]
        have h2 : (e.target == m && !(decide (e.source ∈ order))) = true := by
          simp [ht, hs, hnid]
        have h3 : (e.source == nid && e.target == m) = true := by
          simp [ht, hs]
        rw [h1, h2, h3]
        simp only [List.length_cons]
        push_cast
        rw [ih]
        ring
      · have h1 : (e.target == m && !(decide (e.source ∈ order ++ [nid]))) =
            (e.target == m && !(decide (e.source ∈ order))) := by
          simp [List.mem_append, hs]
        have h3 : (e.source == nid && e.target == m) = false := by
          simp [hs]
        rw [h1, h3]
        by_cases hmem : e.source ∈ order
        · have : (e.target == m && !(decide (e.source ∈ order))) = false := by
            simp [hmem]
          rw [this]
          exact ih
        · have : (e.target == m && !(decide (e.source ∈ order))) = true := by
            simp [ht, hmem]
          rw [this]
          simp only [List.length_cons]
          push_cast
          rw [ih]
          ring
    · have h1 : (e.target == m && !(decide (e.source ∈ order ++ [nid]))) = false := by
        simp [ht]
      have h2 : (e.target == m && !(decide (e.source ∈ order))) = false := by
        simp [ht]
      have h3 : (e.source == nid && e.target == m) = false := by
        simp [ht]
      rw [h1, h2, h3]
      exact ih

/-- The loop invariant of Kahn's algorithm relating the queue, the
popped order and the indegree table. -/
structure KInv (edges : List WEdge) (ids : List String)
    (q order : List String) (ind : String → Int) : Prop where
  ind_eq : ∀ m, ind m = (inCount edges order m : Int)
  order_nodup : order.Nodup
  q_nodup : q.Nodup
  q_not_order : ∀ x ∈ q, x ∉ order
  q_ids : ∀ x ∈ q, x ∈ ids
  order_ids : ∀ x ∈ order, x ∈ ids
  complete : ∀ m ∈ ids, m ∉ order → m ∉ q → ind m ≠ 0
  edge_before : ∀ e ∈ edges, e.target ∈ order → Before order e.source e.target
  q_zero : ∀ x ∈ q, ind x = 0

lemma outCount_le_inCount (edges : List WEdge) (order : List String) (nid m : String)
    (hnid : nid ∉ order) : outCount edges nid m ≤ inCount edges order m := by
  induction edges with
  | nil => exact Nat.le_refl 0
  | cons e es ih =>
    simp only [outCount, inCount, List.filter] at ih ⊢
    by_cases hs : (e.source == nid && e.target == m) = true
    · have h2 : (e.target == m && !(decide (e.source ∈ order))) = true := by
        simp only [Bool.and_eq_true, beq_iff_eq] at hs
        simp [hs.1, hs.2, hnid]
      rw [hs, h2]
      simp only [List.length_cons]
      omega
    · rw [Bool.not_eq_true] at hs
      rw [hs]
      by_cases h2 : (e.target == m && !(decide (e.source ∈ order))) = true
      · rw [h2]
        simp only [List.length_cons]
        omega
      · rw [Bool.not_eq_true] at h2
        rw [h2]
        exact ih

lemma mem_succList_edge (edges : List WEdge) (nid x : String)
    (h : x ∈ succList edges nid) : ∃ e ∈ edges, e.source = nid ∧ e.target = x := by
  simp only [succList, List.mem_map, List.mem_filter] at h
  obtain ⟨e, ⟨he, hs⟩, ht⟩ := h
  exact ⟨e, he, by simpa using hs, ht⟩

lemma inCount_zero_source_mem (edges : List WEdge) (order : List String) (t : String)
    (h : inCount edges order t = 0) :
    ∀ e ∈ edges, e.target = t → e.source ∈ order := by
  intro e he ht
  by_contra hs
  have hmem : e ∈ edges.filter (fun e => e.target == t && !(decide (e.source ∈ order))) :=
    List.mem_filter.mpr ⟨he, by simp [ht, hs]⟩
  have hne := List.ne_nil_of_mem hmem
  have hlen := List.length_pos.mpr hne
  unfold inCount at h
  omega

/-- Members of the order have no pending in-edges. -/
lemma kinv_order_ind_zero (edges : List WEdge) (ids : List String)
    (q order : List String) (ind : String → Int)
    (inv : KInv edges ids q order ind) (m : String) (hm : m ∈ order) : ind m = 0 := by
  rw [inv.ind_eq]
  have hnil : edges.filter (fun e => e.target == m && !(decide (e.source ∈ order))) = [] := by
    rw [List.filter_eq_nil_iff]
    intro e he
    by_cases ht : e.target = m
    · have hsrc : e.source ∈ order :=
        before_mem_left order e.source e.target (ht ▸ inv.edge_before e he (ht ▸ hm))
      simp [hsrc]
    · simp [ht]
  unfold inCount
  rw [hnil]
  rfl

/-- One iteration of the `while` loop preserves the invariant. -/
lemma kinv_step (edges : List WEdge) (ids : List String)
    (hend : ∀ e ∈ edges, e.source ∈ ids ∧ e.target ∈ ids)
    (nid : String) (rest order : List String) (ind : String → Int)
    (inv : KInv edges ids (nid :: rest) order ind) :
    KInv edges ids (stepSuccs (succList edges nid) ind rest).2 (order ++ [nid])
      (stepSuccs (succList edges nid) ind rest).1 := by
  have hznid : ind nid = 0 := inv.q_zero nid (List.mem_cons_self _ _)
  have hnidnot : nid ∉ order := inv.q_not_order nid (List.mem_cons_self _ _)
  have hnidids : nid ∈ ids := inv.q_ids nid (List.mem_cons_self _ _)
  have hrestnd : rest.Nodup := (List.nodup_cons.mp inv.q_nodup).2
  have hnidrest : nid ∉ rest := (List.nodup_cons.mp inv.q_nodup).1
  have hle : ∀ x, (((succList edges nid).count x : Int)) ≤ ind x := by
    intro x
    rw [count_succList, inv.ind_eq]
    exact_mod_cast outCount_le_inCount edges order nid x hnidnot
  obtain ⟨extra, heq, hndextra, hiff⟩ := stepSuccs_snd (succList edges nid) ind rest hle
  have hfst := stepSuccs_fst (succList edges nid) ind rest
  have hindzero : ∀ x ∈ order, ind x = 0 := fun x hx =>
    kinv_order_ind_zero edges ids (nid :: rest) order ind inv x hx
  have hextra_pos : ∀ x ∈ extra, (0 : Int) < ind x := by
    intro x hx
    obtain ⟨h1, h2⟩ := (hiff x).mp hx
    rw [h2]
    exact_mod_cast h1
  have hextra_ids : ∀ x ∈ extra, x ∈ ids := by
    intro x hx
    obtain ⟨h1, _⟩ := (hiff x).mp hx
    have hmem : x ∈ succList edges nid := List.count_pos_iff.mp h1
    obtain ⟨e, he, _, ht⟩ := mem_succList_edge edges nid x hmem
    exact ht ▸ (hend e he).2
  have hindeq : ∀ m, (stepSuccs (succList edges nid) ind rest).1 m =
      (inCount edges (order ++ [nid]) m : Int) := by
    intro m
    rw [hfst m, inv.ind_eq, count_succList, inCount_pop edges order nid m hnidnot]
  refine ⟨hindeq, ?_, ?_, ?_, ?_, ?_, ?_, ?_, ?_⟩
  · rw [List.nodup_append]
    exact ⟨inv.order_nodup, List.nodup_singleton nid,
      fun x hx hx2 => hnidnot ((List.mem_singleton.mp hx2) ▸ hx)⟩
  · rw [heq, List.nodup_append]
    refine ⟨hrestnd, hndextra, ?_⟩
    intro x hxr hxe
    have h0 : ind x = 0 := inv.q_zero x (List.mem_cons_of_mem nid hxr)
    have hpos := hextra_pos x hxe
    omega
  · intro x hx
    rw [heq] at hx
    rcases List.mem_append.mp hx with hxr | hxe
    · intro hmem
      rcases List.mem_append.mp hmem with hmo | hmn
      · exact inv.q_not_order x (List.mem_cons_of_mem nid hxr) hmo
      · exact hnidrest ((List.mem_singleton.mp hmn) ▸ hxr)
    · intro hmem
      have hpos := hextra_pos x hxe
      rcases List.mem_append.mp hmem with hmo | hmn
      · have := hindzero x hmo
        omega
      · rw [List.mem_singleton.mp hmn] at hpos
        omega
  · intro x hx
    rw [heq] at hx
    rcases List.mem_append.mp hx with hxr | hxe
    · exact inv.q_ids x (List.mem_cons_of_mem nid hxr)
    · exact hextra_ids x hxe
  · intro x hx
    rcases List.mem_append.mp hx with hxo | hxn
    · exact inv.order_ids x hxo
    · exact (List.mem_singleton.mp hxn) ▸ hnidids
  · intro m hmids hmorder hmq
    rw [heq] at hmq
    have hmo : m ∉ order := fun hc => hmorder (List.mem_append.mpr (Or.inl hc))
    have hmn : m ≠ nid := fun hc => hmorder (List.mem_append.mpr (Or.inr (by simp [hc])))
    have hmr : m ∉ rest := fun hc => hmq (List.mem_append.mpr (Or.inl hc))
    have hme : m ∉ extra := fun hc => hmq (List.mem_append.mpr (Or.inr hc))
    rw [hfst m]
    by_cases hz : ind m = 0
    · have := inv.complete m hmids hmo (by
        intro hc
        rcases List.mem_cons.mp hc with hc1 | hc2
        · exact hmn hc1
        · exact hmr hc2)
      exact absurd hz this
    · intro hc
      have hcnt : ind m = ((succList edges nid).count m : Int) := by omega
      have hpos : 0 < (succList edges nid).count m := by
        have := hle m
        omega
      exact hme ((hiff m).mpr ⟨hpos, hcnt⟩)
  · intro e he htgt
    rcases List.mem_append.mp htgt with hto | htn
    · exact before_append_right order [nid] e.source e.target (inv.edge_before e he hto)
    · have htn2 : e.target = nid := List.mem_singleton.mp htn
    -- `ind nid = 0`, so every in-edge of `nid` has its source popped
      have hic : inCount edges order nid = 0 := by
        have := inv.ind_eq nid
        omega
      have hsrc : e.source ∈ order :=
        inCount_zero_source_mem edges order nid hic e he htn2
      rw [htn2]
      exact before_of_mem_append order e.source nid hsrc
  · intro x hx
    rw [heq] at hx
    rw [hfst x]
    rcases List.mem_append.mp hx with hxr | hxe
    · have h0 : ind x = 0 := inv.q_zero x (List.mem_cons_of_mem nid hxr)
      have hcle := hle x
      omega
    · obtain ⟨_, h2⟩ := (hiff x).mp hxe
      omega

/-- The invariant holds at loop entry. -/
lemma kinv_init (edges : List WEdge) (ids : List String) (hnd : ids.Nodup) :
    KInv edges ids (ids.filter (fun i => indeg0 edges i = 0)) [] (indeg0 edges) := by
  refine ⟨?_, List.nodup_nil, hnd.filter _, ?_, ?_, ?_, ?_, ?_, ?_⟩
  · intro m
    exact indeg0_eq_inCount edges m
  · intro x _
    simp
  · intro x hx
    exact List.mem_of_mem_filter hx
  · intro x hx
    simp at hx
  · intro m hmids _ hmq
    intro hz
    exact hmq (List.mem_filter.mpr ⟨hmids, by simp [hz]⟩)
  · intro e _ ht
    simp at ht
  · intro x hx
    have := (List.mem_filter.mp hx).2
    simpa using this

lemma nodup_subset_length_le (l1 l2 : List String) (hnd : l1.Nodup)
    (hsub : ∀ x ∈ l1, x ∈ l2) : l1.length ≤ l2.length := by
  have hfin : l1.toFinset ⊆ l2.toFinset := fun x hx =>
    List.mem_toFinset.mpr (hsub x (List.mem_toFinset.mp hx))
  have h1 : l1.toFinset.card = l1.length := List.toFinset_card_of_nodup hnd
  have h2 : l2.toFinset.card ≤ l2.length := l2.toFinset_card_le
  have := Finset.card_le_card hfin
  omega

lemma nodup_subset_full (l1 l2 : List String) (h1 : l1.Nodup) (h2 : l2.Nodup)
    (hsub : ∀ x ∈ l1, x ∈ l2) (hlen : l2.length ≤ l1.length) :
    ∀ x ∈ l2, x ∈ l1 := by
  have hfin : l1.toFinset ⊆ l2.toFinset := fun x hx =>
    List.mem_toFinset.mpr (hsub x (List.mem_toFinset.mp hx))
  have hc1 : l1.toFinset.card = l1.length := List.toFinset_card_of_nodup h1
  have hc2 : l2.toFinset.card = l2.length := List.toFinset_card_of_nodup h2
  have heq : l1.toFinset = l2.toFinset :=
    Finset.eq_of_subset_of_card_le hfin (by omega)
  intro x hx
  exact List.mem_toFinset.mp (heq ▸ List.mem_toFinset.mpr hx)

/-- Running the loop from an invariant state with sufficient fuel lands
in an invariant state with an empty queue. -/
lemma kahnLoop_master (edges : List WEdge) (ids : List String)
    (hend : ∀ e ∈ edges, e.source ∈ ids ∧ e.target ∈ ids) :
    ∀ (fuel : Nat) (q order : List String) (ind : String → Int),
      KInv edges ids q order ind →
      ids.length < fuel + order.length →
      ∃ indf, KInv edges ids [] (kahnLoop (succList edges) fuel q order ind) indf := by
  intro fuel
  induction fuel with
  | zero =>
    intro q order ind inv hfuel
    exfalso
    have := nodup_subset_length_le order ids inv.order_nodup inv.order_ids
    omega
  | succ fuel ih =>
    intro q order ind inv hfuel
    match q with
    | [] => exact ⟨ind, inv⟩
    | nid :: rest =>
      have step := kinv_step edges ids hend nid rest order ind inv
      have hlen : ids.length < fuel + (order ++ [nid]).length := by
        simp only [List.length_append, List.length_cons, List.length_nil]
        omega
      have hres := ih (stepSuccs (succList edges nid) ind rest).2 (order ++ [nid])
        (stepSuccs (succList edges nid) ind rest).1 step hlen
      simpa [kahnLoop] using hres

/-- The state after `kahnOrderIds` satisfies the invariant with an empty
queue. -/
lemma kahnOrderIds_master (nodes : List WNode) (edges : List WEdge)
    (hnd : (nodeIds nodes).Nodup)
    (hend : ∀ e ∈ edges, e.source ∈ nodeIds nodes ∧ e.target ∈ nodeIds nodes) :
    ∃ indf, KInv edges (nodeIds nodes) [] (kahnOrderIds nodes edges) indf :=
  kahnLoop_master edges (nodeIds nodes) hend ((nodeIds nodes).length + 1)
    ((nodeIds nodes).filter (fun i => indeg0 edges i = 0)) [] (indeg0 edges)
    (kinv_init edges (nodeIds nodes) hnd) (by simp)

/-- On an acyclic graph every node gets popped: were some node left
over, the leftover set would have a source-minimal element (by
well-foundedness) that still has a pending in-edge from the leftover
set — a contradiction. -/
lemma kahnOrderIds_complete (nodes : List WNode) (edges : List WEdge)
    (hnd : (nodeIds nodes).Nodup)
    (hend : ∀ e ∈ edges, e.source ∈ nodeIds nodes ∧ e.target ∈ nodeIds nodes)
    (hacyc : Acyclic edges) :
    ∀ x ∈ nodeIds nodes, x ∈ kahnOrderIds nodes edges := by
  obtain ⟨indf, inv⟩ := kahnOrderIds_master nodes edges hnd hend
  by_contra hc
  push_neg at hc
  obtain ⟨x0, hx0ids, hx0not⟩ := hc
  have hS : Set.Nonempty
      (setOf (fun y => y ∈ nodeIds nodes ∧ y ∉ kahnOrderIds nodes edges)) :=
    ⟨x0, hx0ids, hx0not⟩
  obtain ⟨m, hmS, hmin⟩ := hacyc.has_min _ hS
  have hne := inv.complete m hmS.1 hmS.2 (by simp)
  rw [inv.ind_eq] at hne
  have hpos : 0 < inCount edges (kahnOrderIds nodes edges) m := by
    by_contra hz
    exact hne (by omega)
  obtain ⟨e, hef⟩ := List.exists_mem_of_length_pos hpos
  have hmem := List.mem_filter.mp hef
  have hcond := hmem.2
  simp only [Bool.and_eq_true, beq_iff_eq] at hcond
  have hcond2 : e.source ∉ kahnOrderIds nodes edges := by
    have := hcond.2
    simpa using this
  have hsrcS : e.source ∈
      setOf (fun y => y ∈ nodeIds nodes ∧ y ∉ kahnOrderIds nodes edges) :=
    ⟨(hend e hmem.1).1, hcond2⟩
  exact hmin e.source hsrcS ⟨e, hmem.1, rfl, hcond.1⟩

/-- Along a decidable edge chain, `indexOf` increases strictly in any
order satisfying the edge-before property. -/
lemma chain_indexOf_lt (edges : List WEdge) (res : List String)
    (hnd : res.Nodup)
    (hbef : ∀ e ∈ edges, e.target ∈ res → Before res e.source e.target)
    (htgt : ∀ e ∈ edges, e.target ∈ res) :
    ∀ (xs : List String) (a b : String), chainEdgesB edges a xs b = true →
      res.indexOf a < res.indexOf b := by
  intro xs
  induction xs with
  | nil =>
    intro a b hch
    simp only [chainEdgesB, List.any_eq_true, Bool.and_eq_true, beq_iff_eq] at hch
    obtain ⟨e, he, hs, ht⟩ := hch
    have hb := hbef e he (htgt e he)
    rw [hs, ht] at hb
    exact before_indexOf_lt res a b hnd hb
  | cons x xs ih =>
    intro a b hch
    simp only [chainEdgesB, Bool.and_eq_true] at hch
    obtain ⟨h1, h2⟩ := hch
    simp only [List.any_eq_true, Bool.and_eq_true, beq_iff_eq] at h1
    obtain ⟨e, he, hs, ht⟩ := h1
    have hb := hbef e he (htgt e he)
    rw [hs, ht] at hb
    exact Nat.lt_trans (before_indexOf_lt res a x hnd hb) (ih x b h2)

lemma filterMap_find_map_id (nodes : List WNode) (l : List String)
    (hsub : ∀ i ∈ l, i ∈ nodeIds nodes) :
    (l.filterMap (fun i => nodes.find? (fun n => n.id == i))).map WNode.id = l := by
  induction l with
  | nil => rfl
  | cons i l ih =>
    have hi := hsub i (List.mem_cons_self i l)
    obtain ⟨n, hn⟩ : ∃ n, nodes.find? (fun n => n.id == i) = some n := by
      have hsome : (nodes.find? (fun n => n.id == i)).isSome := by
        rw [List.find?_isSome]
        simp only [nodeIds, List.mem_map] at hi
        obtain ⟨n, hnmem, hid⟩ := hi
        exact ⟨n, hnmem, by simp [hid]⟩
      exact Option.isSome_iff_exists.mp hsome
    have hid : n.id = i := by
      have := List.find?_some hn
      simpa using this
    simp [List.filterMap_cons, hn, hid,
      ih (fun j hj => hsub j (List.mem_cons_of_mem i hj))]

lemma find?_id_self (nodes : List WNode) (hnd : (nodeIds nodes).Nodup)
    (n : WNode) (hn : n ∈ nodes) :
    nodes.find? (fun m => m.id == n.id) = some n := by
  induction nodes with
  | nil => cases hn
  | cons a l ih =>
    have hnd2 : (nodeIds l).Nodup := by
      simp only [nodeIds, List.map_cons, List.nodup_cons] at hnd
      exact hnd.2
    have hanotl : a.id ∉ nodeIds l := by
      simp only [nodeIds, List.map_cons, List.nodup_cons] at hnd
      exact hnd.1
    by_cases hai : a.id = n.id
    · have hna : n = a := by
        rcases List.mem_cons.mp hn with h1 | h2
        · exact h1
        · exfalso
          apply hanotl
          rw [hai]
          exact List.mem_map.mpr ⟨n, h2, rfl⟩
      rw [List.find?_cons_of_pos _ (by simp [hai])]
      rw [hna]
    · rw [List.find?_cons_of_neg _ (by simp [hai])]
      have hnl : n ∈ l := by
        rcases List.mem_cons.mp hn with h1 | h2
        · exact absurd (h1 ▸ rfl) hai
        · exact h2
      exact ih hnd2 hnl

/-- C2: on every acyclic graph with distinct node ids and edges between
declared nodes, `topological_sort` succeeds and returns an order that is
exactly the one produced by Kahn's algorithm with its FIFO queue seeded
in declaration order (`kahnOrderIds` — determinism is definitional),
contains each node exactly once, and places the source of every edge
strictly before its target. -/
theorem topological_sort_kahn_correct (nodes : List WNode) (edges : List WEdge)
    (hnd : (nodeIds nodes).Nodup)
    (hend : ∀ e ∈ edges, e.source ∈ nodeIds nodes ∧ e.target ∈ nodeIds nodes)
    (hacyc : Acyclic edges) :
    ∃ order, topological_sort nodes edges = Except.ok order
      ∧ order.map WNode.id = kahnOrderIds nodes edges
      ∧ (order.map WNode.id).Perm (nodeIds nodes)
      ∧ order.length = nodes.length
      ∧ (∀ n ∈ nodes, n ∈ order)
      ∧ (∀ m ∈ order, m ∈ nodes)
      ∧ (∀ n ∈ nodes, (order.map WNode.id).count n.id = 1)
      ∧ (∀ e ∈ edges, (order.map WNode.id).indexOf e.source <
          (order.map WNode.id).indexOf e.target) := by
  obtain ⟨indf, inv⟩ := kahnOrderIds_master nodes edges hnd hend
  have hcomp := kahnOrderIds_complete nodes edges hnd hend hacyc
  have hresnd : (kahnOrderIds nodes edges).Nodup := inv.order_nodup
  have hressub : ∀ x ∈ kahnOrderIds nodes edges, x ∈ nodeIds nodes := inv.order_ids
  have hlenle := nodup_subset_length_le (kahnOrderIds nodes edges) (nodeIds nodes)
    hresnd hressub
  have hlenge := nodup_subset_length_le (nodeIds nodes) (kahnOrderIds nodes edges)
    hnd hcomp
  have hnodeslen : (nodeIds nodes).length = nodes.length := by
    simp [nodeIds]
  have hcondlen : (kahnOrderIds nodes edges).length = nodes.length := by omega
  have hmapid := filterMap_find_map_id nodes (kahnOrderIds nodes edges) hressub
  refine ⟨(kahnOrderIds nodes edges).filterMap
      (fun i => nodes.find? (fun n => n.id == i)), ?_, hmapid, ?_, ?_, ?_, ?_, ?_, ?_⟩
  · simp only [topological_sort]
    rw [if_pos hcondlen]
  · rw [hmapid]
    exact ((hresnd.subperm (fun x hx => hressub x hx)).antisymm
      (hnd.subperm (fun x hx => hcomp x hx)))
  · have := congrArg List.length hmapid
    simp only [List.length_map] at this
    omega
  · intro n hn
    have hidmem : n.id ∈ kahnOrderIds nodes edges :=
      hcomp n.id (List.mem_map.mpr ⟨n, hn, rfl⟩)
    rw [List.mem_filterMap]
    exact ⟨n.id, hidmem, find?_id_self nodes hnd n hn⟩
  · intro m hm
    rw [List.mem_filterMap] at hm
    obtain ⟨i, _, hf⟩ := hm
    exact List.mem_of_find?_eq_some hf
  · intro n hn
    have hperm : (kahnOrderIds nodes edges).Perm (nodeIds nodes) :=
      ((hresnd.subperm (fun x hx => hressub x hx)).antisymm
        (hnd.subperm (fun x hx => hcomp x hx)))
    rw [hmapid, hperm.count_eq]
    exact List.count_eq_one_of_mem hnd (List.mem_map.mpr ⟨n, hn, rfl⟩)
  · intro e he
    have htgt : e.target ∈ kahnOrderIds nodes edges := hcomp e.target (hend e he).2
    have hb := inv.edge_before e he htgt
    rw [hmapid]
    exact before_indexOf_lt (kahnOrderIds nodes edges) e.source e.target hresnd hb

/-- Concrete two-node workflow used by the C2 witness. -/
def wNodesAB : List WNode := [⟨"A", "T", []⟩, ⟨"B", "T", []⟩]

/-- Its single edge `A → B`. -/
def wEdgesAB : List WEdge := [⟨"A", "B"⟩]

/-- Witness for C2 at the concrete acyclic graph `A → B`. -/
theorem topological_sort_kahn_correct_witness :
    ∃ order, topological_sort wNodesAB wEdgesAB = Except.ok order
      ∧ order.map WNode.id = kahnOrderIds wNodesAB wEdgesAB
      ∧ (order.map WNode.id).Perm (nodeIds wNodesAB)
      ∧ order.length = wNodesAB.length
      ∧ (∀ n ∈ wNodesAB, n ∈ order)
      ∧ (∀ m ∈ order, m ∈ wNodesAB)
      ∧ (∀ n ∈ wNodesAB, (order.map WNode.id).count n.id = 1)
      ∧ (∀ e ∈ wEdgesAB, (order.map WNode.id).indexOf e.source <
          (order.map WNode.id).indexOf e.target) := by
  apply topological_sort_kahn_correct wNodesAB wEdgesAB
  · decide
  · decide
  · have hsub : Subrelation (EdgeRel wEdgesAB)
        (InvImage (fun a b : Nat => a < b) (fun s : String => if s = "B" then 1 else 0)) := by
      intro x y h
      obtain ⟨e, he, hs, ht⟩ := h
      have he2 : e = ⟨"A", "B"⟩ := by
        simpa [wEdgesAB] using he
      rw [← hs, ← ht, he2]
      show (if ("A" : String) = "B" then 1 else 0) < (if ("B" : String) = "B" then 1 else 0)
      decide
    exact Subrelation.wf hsub (InvImage.wf _ Nat.lt_wfRel.wf)

/-- C3: a run on a graph with a directed cycle raises the cyclic-graph
error inside `topological_sort` before any node is dispatched: no
NodeExecution row is written, the context stays empty, and the
coordinator records the run as `failed`. -/
theorem cyclic_graph_aborts_run (env : EngineEnv) (nodes : List WNode)
    (edges : List WEdge) (uid : String)
    (hnd : (nodeIds nodes).Nodup)
    (hend : ∀ e ∈ edges, e.source ∈ nodeIds nodes ∧ e.target ∈ nodeIds nodes)
    (a : String) (xs : List String) (hcyc : chainEdgesB edges a xs a = true) :
    execute_workflow env nodes edges uid =
      ⟨[], [], some "Cycle detected or invalid workflow DAG"⟩
  ∧ (run_job true (execute_workflow env nodes edges uid)).1 =
      [RunWrite.insertRunning, RunWrite.updateStatus "failed"] := by
  have hts : topological_sort nodes edges =
      .error "Cycle detected or invalid workflow DAG" := by
    simp only [topological_sort]
    rw [if_neg]
    intro hlen
    obtain ⟨indf, inv⟩ := kahnOrderIds_master nodes edges hnd hend
    have hresnd := inv.order_nodup
    have hressub := inv.order_ids
    have hidslen : (nodeIds nodes).length = nodes.length := by
      simp [nodeIds]
    have hfull : ∀ x ∈ nodeIds nodes, x ∈ kahnOrderIds nodes edges := by
      apply nodup_subset_full _ _ hresnd hnd hressub
      omega
    have htgt : ∀ e ∈ edges, e.target ∈ kahnOrderIds nodes edges := fun e he =>
      hfull e.target (hend e he).2
    have hlt := chain_indexOf_lt edges (kahnOrderIds nodes edges) hresnd
      inv.edge_before htgt xs a a hcyc
    omega
  constructor
  · simp [execute_workflow, hts]
  · simp [execute_workflow, hts, run_job]

/-- Witness for C3 at the concrete cyclic graph `A ⇄ B`. -/
theorem cyclic_graph_aborts_run_witness :
    execute_workflow envNone wNodesAB [⟨"A", "B"⟩, ⟨"B", "A"⟩] "u" =
      ⟨[], [], some "Cycle detected or invalid workflow DAG"⟩
  ∧ (run_job true (execute_workflow envNone wNodesAB [⟨"A", "B"⟩, ⟨"B", "A"⟩] "u")).1 =
      [RunWrite.insertRunning, RunWrite.updateStatus "failed"] :=
  cyclic_graph_aborts_run envNone wNodesAB [⟨"A", "B"⟩, ⟨"B", "A"⟩] "u"
    (by decide) (by decide) "A" ["B"] (by decide)
